import Mathlib

/-!
Verification development for the `clomask` synthetic-data generator
(`data-acquisition/data-synthesizer/src/data_synthesizer/data_synthesizer.py`).

The Python source is shallowly embedded as executable Lean definitions:

* Python exceptions become the `Err` inductive; fallible code returns `Except Err`.
* The single `np.random.RandomState` generator becomes an abstract infinite
  stream of raw natural-number draws (`RngState`), consumed one value per
  random decision, in the order the source consumes them.  The numeric
  interpretation of a raw draw (`v % n` for an n-way choice, `lo + v % (hi-lo)`
  for `randint`) stands in for numpy's internal bit consumption; what the
  claims depend on is the draw *order*, range and error behaviour, which are
  modelled faithfully.
* PIL images become records carrying their pixel size together with pixel maps
  `ℤ × ℤ → ℕ`; `Image.paste` (with its clipping to the destination image) and
  `Image.composite` (mask value 0 keeps the second image, 255 copies the
  first, intermediate values blend) are modelled directly.  Content-resampling
  performed inside PIL (`resize`, `rotate`) is abstracted into an environment
  `Env` of external functions; the facts the source relies on (a resized image
  has exactly the requested size, the alpha channel is channel 3) are kept.
* Python floats are modelled as exact rationals; the three size-scale
  constants 0.6, 0.75, 0.9 become 3/5, 3/4, 9/10 and Python's `int()`
  truncation becomes `pyInt`.
* The unbounded `while` loop of `_process_shelf` takes an explicit fuel
  argument; exhausting the fuel while the loop guard still holds yields the
  distinguished `Err.fuelOut`, which no primitive ever raises, so
  "the loop terminates" is "the result is not `Err.fuelOut`".
-/

set_option linter.unusedVariables false

/-- Python-level exception kinds relevant to the synthesizer.  `valueError`,
`keyError`, `zeroDivisionError`, `indexError` and `attributeError` are the
exceptions the interpreter or numpy/PIL actually raise; `invalidInputError`
models the custom exception type named by the specification (no such type
exists anywhere in the source); `fuelOut` marks fuel exhaustion of the
modelled `while` loop and is raised by no embedded primitive. -/
inductive Err where
  | valueError
  | keyError
  | zeroDivisionError
  | indexError
  | attributeError
  | invalidInputError
  | fuelOut
deriving DecidableEq, Repr

/-- The state of the seeded random generator: an abstract infinite stream of
raw draws (determined by the seed) together with the index of the next draw.
Every random decision of the synthesizer consumes exactly one stream value. -/
structure RngState where
  stream : Nat → Nat
  idx : Nat

/-- Consume one raw draw. -/
def RngState.next (s : RngState) : Nat × RngState :=
  (s.stream s.idx, ⟨s.stream, s.idx + 1⟩)

/-- A computation threading the random generator and possibly raising a
Python exception. -/
def RandM (α : Type) : Type :=
  RngState → Except Err (α × RngState)

def RandM.pure (a : α) : RandM α := fun s => .ok (a, s)

def RandM.bind (m : RandM α) (f : α → RandM β) : RandM β := fun s =>
  match m s with
  | .error e => .error e
  | .ok (a, s₁) => f a s₁

instance : Monad RandM where
  pure := RandM.pure
  bind := RandM.bind

/-- Raise a Python exception. -/
def RandM.raise (e : Err) : RandM α := fun _ => .error e

/-- Run a pure fallible step (no random draw consumed). -/
def RandM.liftE (e : Except Err α) : RandM α := fun s =>
  match e with
  | .error err => .error err
  | .ok a => .ok (a, s)

/-- Consume one raw draw from the stream. -/
def RandM.draw : RandM Nat := fun s =>
  .ok (s.stream s.idx, ⟨s.stream, s.idx + 1⟩)

theorem RandM.bind_def (m : RandM α) (f : α → RandM β) (s : RngState) :
    (m >>= f) s = match m s with
      | .error e => .error e
      | .ok (a, s₁) => f a s₁ := rfl

theorem RandM.pure_def (a : α) (s : RngState) :
    (Pure.pure a : RandM α) s = .ok (a, s) := rfl

/-- `numpy.random.RandomState.choice` on a 1-d pool: uniform selection from a
non-empty list, `ValueError` on an empty one.  One draw consumed. -/
def npChoice (l : List α) : RandM α :=
  match l with
  | [] => RandM.raise .valueError
  | a :: rest => do
      let v ← RandM.draw
      pure ((a :: rest).get ⟨v % (rest.length + 1), Nat.mod_lt _ (Nat.succ_pos _)⟩)

/-- `numpy.random.RandomState.randint(lo, hi)`: uniform draw from the integer
range `[lo, hi)`; raises `ValueError` when `lo >= high`.  One draw consumed. -/
def npRandint (lo hi : ℤ) : RandM ℤ :=
  if hi ≤ lo then RandM.raise .valueError
  else do
    let v ← RandM.draw
    pure (lo + (v : ℤ) % (hi - lo))

/-- `numpy.random.RandomState.binomial(1, p)`: a single Bernoulli draw.  One
stream value is consumed regardless of `p`; the outcome is modelled as the raw
draw's parity (only the draw's position in the stream and its 0/1 range matter
to the claims, not its distribution). -/
def npBinomial : RandM ℕ := do
  let v ← RandM.draw
  pure (v % 2)

/-- Python dict subscript `d[k]` over an association list: `KeyError` when the
key is absent. -/
def pyLookup (l : List (String × β)) (k : String) : Except Err β :=
  match List.lookup k l with
  | some v => .ok v
  | none => .error .keyError

/-- Python `int()` applied to a (rational-modelled) float: truncation toward
zero. -/
def pyInt (q : ℚ) : ℤ :=
  if q < 0 then -⌊-q⌋ else ⌊q⌋

/-- The `ObjectSize` enumeration `{SMALL = 0.6, MEDIUM = 0.75, LARGE = 0.9}`. -/
inductive ObjectSize where
  | small
  | medium
  | large
deriving DecidableEq, Repr

/-- The float value carried by each `ObjectSize` member, as an exact
rational. -/
def ObjectSize.scale : ObjectSize → ℚ
  | .small => 3 / 5
  | .medium => 3 / 4
  | .large => 9 / 10

/-- `OBJECT_SIZES = list(ObjectSize)`. -/
def OBJECT_SIZES : List ObjectSize := [.small, .medium, .large]

/-- One foreground object's configured native dimensions
(`{"height": ..., "width": ...}`). -/
structure ObjConf where
  height : ℤ
  width : ℤ
deriving DecidableEq, Repr

/-- `DataSynthesizer._get_new_image_size`:
`new_height = int(shelf_height * obj_size)`;
`new_width  = int((new_height / cur_height) * cur_width)`;
returns `(new_width, new_height)`.  The division `new_height / cur_height`
raises `ZeroDivisionError` when the configured native height is zero. -/
def getNewImageSize (conf : ObjConf) (objSize : ObjectSize) (shelfHt : ℤ) :
    Except Err (ℤ × ℤ) :=
  if conf.height = 0 then .error .zeroDivisionError
  else
    let newHeight := pyInt ((shelfHt : ℚ) * objSize.scale)
    let newWidth := pyInt (((newHeight : ℚ) / (conf.height : ℚ)) * (conf.width : ℚ))
    .ok (newWidth, newHeight)

theorem pyInt_eq_floor {q : ℚ} (h : 0 ≤ q) : pyInt q = ⌊q⌋ := by
  unfold pyInt
  rw [if_neg (not_lt.2 h)]

/-- A PIL image: its pixel size plus its pixel data.  `rgba` is the full
pixel value at a coordinate (an abstract encoding), `alpha` is channel 3
(`Image.getchannel(3)`); the foreground cutouts are RGBA PNGs, so the channel
is always present. -/
structure Img where
  w : ℕ
  h : ℕ
  rgba : ℤ × ℤ → ℕ
  alpha : ℤ × ℤ → ℕ

/-- A single grey/alpha plane (`Image.new('L', ...)` layers, masks). -/
abbrev Pix := ℤ × ℤ → ℕ

/-- The external (PIL / filesystem) collaborators of the packer, abstracted:
pixel resampling done inside `Image.resize` / `Image.rotate(..., expand=1)`,
the blend used by `Image.composite` at intermediate mask values, and the
opened template images.  The structural facts the source relies on are kept in
the embedding itself (a resized image has exactly the requested size; paste
clips to the destination; composite keeps the base where the mask is 0 and
copies the overlay where it is 255). -/
structure Env where
  loadImg : String → Img
  resampleRgba : Img → ℤ × ℤ → ℤ × ℤ → ℕ
  resampleAlpha : Img → ℤ × ℤ → ℤ × ℤ → ℕ
  rotateImg : ℤ → Img → Img
  mix : ℕ → ℕ → ℕ → ℕ
  bgPix : String → ℤ × ℤ → ℕ
  bgSize : String → ℕ × ℕ

/-- `Image.resize(new_size, Image.LANCZOS)`: the result has exactly the
requested size; a negative requested dimension raises `ValueError`. -/
def resizeImg (env : Env) (img : Img) (sz : ℤ × ℤ) : Except Err Img :=
  if sz.1 < 0 ∨ sz.2 < 0 then .error .valueError
  else .ok ⟨sz.1.toNat, sz.2.toNat, env.resampleRgba img sz, env.resampleAlpha img sz⟩

/-- Pixel `p` is covered by a paste of a `w × h` overlay at `pos` onto a
`bw × bh` base: inside the overlay rectangle and inside the base image
(PIL clips the paste to the destination). -/
def inPaste (bw bh : ℕ) (pos : ℤ × ℤ) (w h : ℕ) (p : ℤ × ℤ) : Prop :=
  0 ≤ p.1 ∧ p.1 < (bw : ℤ) ∧ 0 ≤ p.2 ∧ p.2 < (bh : ℤ) ∧
    pos.1 ≤ p.1 ∧ p.1 < pos.1 + (w : ℤ) ∧ pos.2 ≤ p.2 ∧ p.2 < pos.2 + (h : ℤ)

instance (bw bh : ℕ) (pos : ℤ × ℤ) (w h : ℕ) (p : ℤ × ℤ) :
    Decidable (inPaste bw bh pos w h p) := by
  unfold inPaste
  infer_instance

/-- `base.paste(overlay, pos)` for an overlay of size `w × h` onto a base
image of size `bw × bh`: the overlay replaces the rectangle
`[pos.x, pos.x + w) × [pos.y, pos.y + h)` clipped to the base image; all other
pixels keep their base value. -/
def pasteAt (base : Pix) (bw bh : ℕ) (overlay : Pix) (pos : ℤ × ℤ) (w h : ℕ) : Pix :=
  fun p =>
    if inPaste bw bh pos w h p then overlay (p.1 - pos.1, p.2 - pos.2)
    else base p

/-- `Image.composite(fg, bg, mask)`: where the mask is 0 the second image is
kept unchanged, where it is 255 the first image is copied, and intermediate
values interpolate (the exact interpolation is the abstract `Env.mix`). -/
def compositeImg (env : Env) (fg bg : Pix) (mask : Pix) : Pix :=
  fun p =>
    if mask p = 0 then bg p
    else if mask p = 255 then fg p
    else env.mix (mask p) (fg p) (bg p)

/-- `"mask_{}{}${}.png".format(shelf, num_obj, fg_id)`. -/
def maskName (shelf numObj : ℕ) (classId : ℤ) : String :=
  "mask_" ++ toString shelf ++ toString numObj ++ "$" ++ toString classId ++ ".png"

/-- One placement attempt of the packer (one iteration of the inner pack
loop), as observed: the counter value it consumed, the paste anchor, the
(possibly rotation-expanded) size, whether it was accepted (pasted) or
rejected by the overflow rule, and the class id it would be tagged with. -/
structure Attempt where
  counter : ℕ
  anchorX : ℤ
  anchorY : ℤ
  width : ℕ
  height : ℕ
  accepted : Bool
  classId : ℤ
deriving DecidableEq, Repr

/-- One emitted mask file: its name (relative to `train_mask/`), the naming
ingredients, the placement height used for its anchor, and its pixel
content. -/
structure MaskFile where
  name : String
  shelf : ℕ
  counter : ℕ
  classId : ℤ
  height : ℕ
  content : Pix

/-- The mutable state of `_process_shelf`: the cursor (`paste_pos`), the
object counter `num_obj`, the running composited image `bg_img`, the
accumulated `shelf_alpha_mask`, plus the observation lists: every mask file
written so far and every placement attempt made so far. -/
structure ShelfState where
  posX : ℤ
  posY : ℤ
  numObj : ℕ
  img : Pix
  shelfMask : Pix
  masks : List MaskFile
  attempts : List Attempt

/-- The per-shelf constants of `_process_shelf`. -/
structure ShelfCtx where
  env : Env
  shelf : ℕ
  xStart : ℤ
  xEnd : ℤ
  shelfYs : List ℤ
  shelfHt : ℤ
  bw : ℕ
  bh : ℕ
  maxOffset : ℤ

/-- The configuration of one background template
(`backgrounds.json` entry): the shared shelf x-extent, the shelf bottom-y
positions, the shelf height and the shelf count. -/
structure BgConf where
  shelf_x_start : ℤ
  shelf_x_end : ℤ
  shelf_y_positions : List ℤ
  shelf_ht : ℤ
  num_shelves : ℕ

/-- The loaded configuration of `DataSynthesizer`: `bg_conf`, `fg_conf` and
`class_map` (JSON dicts as association lists in key order). -/
structure Synth where
  bg_conf : List (String × BgConf)
  fg_conf : List (String × List (String × ObjConf))
  class_map : List (String × ℤ)

/-- The data returned by `DataSynthesizer._get_fg_and_conf`. -/
structure FgDraw where
  file : String
  conf : ObjConf
  classId : ℤ

/-- `DataSynthesizer._get_fg_and_conf`: uniformly choose a category (a draw),
look its objects up in `fg_conf` (`KeyError` if absent), uniformly choose one
object (a draw), resolve its configuration and the category's class id. -/
def getFgAndConf (syn : Synth) (templatePath : String) (categories : List String) :
    RandM FgDraw := do
  let cat ← npChoice categories
  let objs ← RandM.liftE (pyLookup syn.fg_conf cat)
  let objName ← npChoice (objs.map Prod.fst)
  let conf ← RandM.liftE (pyLookup objs objName)
  let classId ← RandM.liftE (pyLookup syn.class_map cat)
  pure ⟨templatePath ++ "/foregrounds/" ++ cat ++ "/" ++ objName ++ ".png", conf, classId⟩

/-- `DataSynthesizer._get_bg_and_conf`: uniformly choose a background label
(a draw) and resolve its configuration and image file. -/
def getBgAndConf (syn : Synth) (templatePath : String) : RandM (String × BgConf) := do
  let bgLabel ← npChoice (syn.bg_conf.map Prod.fst)
  let conf ← RandM.liftE (pyLookup syn.bg_conf bgLabel)
  pure (templatePath ++ "/backgrounds/" ++ bgLabel ++ ".jpg", conf)

/-- The state after a rejected (overflowing) placement: the counter was
consumed, the cursor jumps to `anchor.x + width`, nothing is pasted and no
mask is emitted. -/
def rejectedState (st : ShelfState) (shelfY : ℤ) (w h : ℕ) (classId : ℤ) : ShelfState :=
  { st with
    posX := st.posX + (w : ℤ)
    posY := shelfY
    numObj := st.numObj + 1
    attempts := st.attempts ++ [⟨st.numObj + 1, st.posX, shelfY - (h : ℤ), w, h, false, classId⟩] }

/-- The state after an accepted placement: the object is pasted onto a fresh
transparent layer, its alpha layer is written as a mask file, the shelf mask
and running image are updated, and the cursor advances by `width + offset`. -/
def acceptedState (env : Env) (shelf : ℕ) (bw bh : ℕ) (st : ShelfState) (shelfY : ℤ)
    (tp : Img) (classId : ℤ) (off : ℤ) : ShelfState :=
  let pos : ℤ × ℤ := (st.posX, shelfY - (tp.h : ℤ))
  let newFg := pasteAt (fun _ => 0) bw bh tp.rgba pos tp.w tp.h
  let newAlpha := pasteAt (fun _ => 0) bw bh tp.alpha pos tp.w tp.h
  { posX := st.posX + (tp.w : ℤ) + off
    posY := shelfY
    numObj := st.numObj + 1
    img := compositeImg env newFg st.img newAlpha
    shelfMask := pasteAt st.shelfMask bw bh tp.alpha pos tp.w tp.h
    masks := st.masks ++
      [⟨maskName shelf (st.numObj + 1) classId, shelf, st.numObj + 1, classId, tp.h, newAlpha⟩]
    attempts := st.attempts ++ [⟨st.numObj + 1, st.posX, shelfY - (tp.h : ℤ), tp.w, tp.h, true, classId⟩] }

/-- Outcome of one iteration of the inner pack loop: either the loop breaks
(`stop`) or continues with the next repetition (`cont`). -/
inductive StepRes where
  | stop (st : ShelfState)
  | cont (st : ShelfState)

/-- The state carried by a `StepRes`. -/
def StepRes.state : StepRes → ShelfState
  | .stop st => st
  | .cont st => st

/-- One iteration of the inner `for _ in range(max_objs_in_pack)` body:
increment the counter, draw the rotation flag (and, if set, the rotation
angle), recompute the paste anchor from the shelf's bottom-y position, then
either reject by the overflow rule (cursor jumps past the end, pack breaks) or
paste, emit the mask, draw the offset, advance the cursor and break early when
the cursor has reached the shelf end.  `rotDraw` is the rotation part: when
the Bernoulli flag is set, draw `randint(-90, 90)` and rotate with
`expand=1`. -/
def rotDraw (env : Env) (fgImg : Img) (isRot : ℕ) : RandM Img :=
  if isRot ≠ 0 then do
    let angle ← npRandint (-90) 90
    pure (env.rotateImg angle fgImg)
  else pure fgImg

def packStep (ctx : ShelfCtx) (fgImg : Img) (classId : ℤ) (st : ShelfState) :
    RandM StepRes := do
  let isRot ← npBinomial
  let toPaste ← rotDraw ctx.env fgImg isRot
  match ctx.shelfYs.get? ctx.shelf with
  | none => RandM.raise .indexError
  | some shelfY =>
    if ctx.xEnd < st.posX + (toPaste.w : ℤ) then
      pure (.stop (rejectedState st shelfY toPaste.w toPaste.h classId))
    else do
      let off ← npRandint 1 ctx.maxOffset
      let st' := acceptedState ctx.env ctx.shelf ctx.bw ctx.bh st shelfY toPaste classId off
      if ctx.xEnd ≤ st'.posX then pure (.stop st') else pure (.cont st')

/-- The inner pack loop: up to `k` repetitions of `packStep`, stopping early
when a step breaks. -/
def packLoop (ctx : ShelfCtx) (fgImg : Img) (classId : ℤ) :
    ℕ → ShelfState → RandM ShelfState
  | 0, st => pure st
  | k + 1, st => do
    let r ← packStep ctx fgImg classId st
    match r with
    | .stop st' => pure st'
    | .cont st' => packLoop ctx fgImg classId k st'

/-- The outer `while paste_pos.x < x_end` loop of `_process_shelf`, with
explicit fuel: sample a foreground object and a size scale, compute the target
size, resize, then run one pack.  Exhausted fuel while the guard still holds
is the distinguished `Err.fuelOut`. -/
def shelfLoop (ctx : ShelfCtx) (syn : Synth) (templatePath : String)
    (categories : List String) (objSizes : List ObjectSize) (maxObjs : ℕ) :
    ℕ → ShelfState → RandM ShelfState
  | 0, st => fun s => if st.posX < ctx.xEnd then .error .fuelOut else .ok (st, s)
  | fuel + 1, st =>
    if st.posX < ctx.xEnd then do
      let fg ← getFgAndConf syn templatePath categories
      let os ← npChoice objSizes
      let sz ← RandM.liftE (getNewImageSize fg.conf os ctx.shelfHt)
      let fgImg ← RandM.liftE (resizeImg ctx.env (ctx.env.loadImg fg.file) sz)
      let st' ← packLoop ctx fgImg fg.classId maxObjs st
      shelfLoop ctx syn templatePath categories objSizes maxObjs fuel st'
    else pure st

/-- `DataSynthesizer._process_shelf`: pack one shelf of `bg_file` and return
its composited image, accumulated alpha mask and the observation lists.
`rotPc` is the rotation probability handed to the Bernoulli draw (it
positions no extra draws and its numeric value is abstracted by
`npBinomial`).  `mkShelfCtx` collects the per-shelf constants read at the top
of `_process_shelf` (shelf region x-extent, y positions, shelf height,
background size). -/
def mkShelfCtx (env : Env) (shelf : ℕ) (bgConf : BgConf) (bgFile : String)
    (maxOffset : ℤ) : ShelfCtx :=
  ⟨env, shelf, bgConf.shelf_x_start, bgConf.shelf_x_end, bgConf.shelf_y_positions,
    bgConf.shelf_ht, (env.bgSize bgFile).1, (env.bgSize bgFile).2, maxOffset⟩

/-- The initial shelf state: cursor at the shelf's x-start, counter 0, the
freshly opened background image, an all-zero accumulated mask, nothing
emitted. -/
def initShelfState (env : Env) (bgConf : BgConf) (bgFile : String) : ShelfState :=
  { posX := bgConf.shelf_x_start
    posY := 0
    numObj := 0
    img := env.bgPix bgFile
    shelfMask := fun _ => 0
    masks := []
    attempts := [] }

def processShelf (env : Env) (syn : Synth) (templatePath : String) (shelf : ℕ)
    (bgConf : BgConf) (bgFile : String) (categories : List String) (rotPc : ℚ)
    (objSizes : List ObjectSize) (maxObjs : ℕ) (maxOffset : ℤ) (fuel : ℕ) :
    RandM ShelfState :=
  shelfLoop (mkShelfCtx env shelf bgConf bgFile maxOffset)
    syn templatePath categories objSizes maxObjs fuel
    (initShelfState env bgConf bgFile)

/-- The per-image shelf merge of `generate_synthetic_dataset`: starting from
`None`, the first shelf result is copied and every further shelf result is
`Image.composite`d over the running image selected by that shelf's
accumulated mask.  An empty shelf list leaves `None` (the subsequent `.save`
would raise `AttributeError`). -/
def mergeShelves (env : Env) : List (Pix × Pix) → Option Pix
  | [] => none
  | r :: rest => some (rest.foldl (fun acc pm => compositeImg env pm.1 acc pm.2) r.1)

/-- The per-image output of the generator: the chosen background file, each
shelf's result in shelf order, and the final composited image. -/
structure ImageOut where
  bgFile : String
  shelves : List ShelfState
  composite : Pix

/-- The `for shelf in range(num_shelves)` loop: process shelves in ascending
index order, threading the random stream. -/
def shelvesLoop (env : Env) (syn : Synth) (templatePath : String) (bgConf : BgConf)
    (bgFile : String) (categories : List String) (rotPc : ℚ)
    (objSizes : List ObjectSize) (maxObjs : ℕ) (maxOffset : ℤ) (fuel : ℕ) :
    ℕ → ℕ → RandM (List ShelfState)
  | 0, _ => pure []
  | count + 1, shelf => do
    let st ← processShelf env syn templatePath shelf bgConf bgFile categories rotPc
      objSizes maxObjs maxOffset fuel
    let rest ← shelvesLoop env syn templatePath bgConf bgFile categories rotPc
      objSizes maxObjs maxOffset fuel count (shelf + 1)
    pure (st :: rest)

/-- One iteration of the image loop of `generate_synthetic_dataset`: draw the
background, draw the rotation probability from `rot_pc`, process every shelf
in index order, then merge the shelf results. -/
def generateImage (env : Env) (syn : Synth) (templatePath : String)
    (categories : List String) (rotPc : List ℚ) (objSizes : List ObjectSize)
    (maxObjs : ℕ) (maxOffset : ℤ) (fuel : ℕ) : RandM ImageOut := do
  let bg ← getBgAndConf syn templatePath
  let rot ← npChoice rotPc
  let shelves ← shelvesLoop env syn templatePath bg.2 bg.1 categories rot objSizes
    maxObjs maxOffset fuel bg.2.num_shelves 0
  match mergeShelves env (shelves.map fun st => (st.img, st.shelfMask)) with
  | none => RandM.raise .attributeError
  | some comp => pure ⟨bg.1, shelves, comp⟩

/-- `DataSynthesizer.generate_synthetic_dataset`, restricted to its
algorithmic content: the sequence of generated images (composite plus masks),
in generation order.  Directory naming and timestamps affect only output
paths, not pixel or mask contents. -/
def generateDataset (env : Env) (syn : Synth) (templatePath : String)
    (categories : List String) (rotPc : List ℚ) (objSizes : List ObjectSize)
    (maxObjs : ℕ) (maxOffset : ℤ) (fuel : ℕ) : ℕ → RandM (List ImageOut)
  | 0 => pure []
  | n + 1 => do
    let img ← generateImage env syn templatePath categories rotPc objSizes maxObjs
      maxOffset fuel
    let rest ← generateDataset env syn templatePath categories rotPc objSizes maxObjs
      maxOffset fuel n
    pure (img :: rest)

/-!
### Determinism machinery

`Good m` says: a successful run of `m` advances only the draw index (never the
stream), and the result is determined by the values of the stream on the
consumed index interval — any state with the same starting index whose stream
agrees on that interval produces the same result.  All embedded computations
are `Good`; this is the formal content of "every random decision is drawn from
the single seeded stream, in a fixed order".
-/

def Good (m : RandM α) : Prop :=
  ∀ s a s₁, m s = .ok (a, s₁) →
    s.idx ≤ s₁.idx ∧ s₁.stream = s.stream ∧
      ∀ t : RngState, t.idx = s.idx →
        (∀ j, s.idx ≤ j → j < s₁.idx → t.stream j = s.stream j) →
        m t = .ok (a, ⟨t.stream, s₁.idx⟩)

theorem good_pure (a : α) : Good (Pure.pure a : RandM α) := by
  intro s b s₁ h
  rw [RandM.pure_def] at h
  simp only [Except.ok.injEq, Prod.mk.injEq] at h
  obtain ⟨rfl, rfl⟩ := h
  refine ⟨le_refl _, rfl, ?_⟩
  intro t ht hag
  cases t with
  | mk tstream tidx =>
    simp only at ht
    subst ht
    rfl

theorem good_raise (e : Err) : Good (RandM.raise e : RandM α) := by
  intro s a s₁ h
  exact absurd h (by simp [RandM.raise])

theorem good_liftE (e : Except Err α) : Good (RandM.liftE e) := by
  intro s a s₁ h
  cases e with
  | error err => exact absurd h (by simp [RandM.liftE])
  | ok v =>
    simp only [RandM.liftE, Except.ok.injEq, Prod.mk.injEq] at h
    obtain ⟨rfl, rfl⟩ := h
    refine ⟨le_refl _, rfl, ?_⟩
    intro t ht hag
    cases t with
    | mk tstream tidx =>
      simp only at ht
      subst ht
      rfl

theorem good_draw : Good RandM.draw := by
  intro s a s₁ h
  simp only [RandM.draw, Except.ok.injEq, Prod.mk.injEq] at h
  obtain ⟨rfl, rfl⟩ := h
  refine ⟨Nat.le_succ _, rfl, ?_⟩
  intro t ht hag
  have hv : t.stream s.idx = s.stream s.idx := hag s.idx (le_refl _) (by simp)
  simp only [RandM.draw, ht, hv]

theorem good_bind {m : RandM α} {f : α → RandM β} (hm : Good m)
    (hf : ∀ a, Good (f a)) : Good (m >>= f) := by
  intro s b s₂ h
  rw [RandM.bind_def] at h
  cases hms : m s with
  | error e => rw [hms] at h; exact absurd h (by simp)
  | ok v =>
    obtain ⟨a, s₁⟩ := v
    rw [hms] at h
    obtain ⟨h1, h2, hdm⟩ := hm s a s₁ hms
    obtain ⟨g1, g2, hdf⟩ := hf a s₁ b s₂ h
    refine ⟨le_trans h1 g1, by rw [g2, h2], ?_⟩
    intro t ht hag
    have hmt : m t = .ok (a, ⟨t.stream, s₁.idx⟩) :=
      hdm t ht (fun j hj1 hj2 => hag j hj1 (lt_of_lt_of_le hj2 g1))
    have hft : f a ⟨t.stream, s₁.idx⟩ = .ok (b, ⟨t.stream, s₂.idx⟩) := by
      refine hdf ⟨t.stream, s₁.idx⟩ rfl ?_
      intro j hj1 hj2
      rw [h2]
      exact hag j (le_trans h1 hj1) hj2
    rw [RandM.bind_def, hmt]
    exact hft

theorem good_ite {c : Prop} [Decidable c] {m₁ m₂ : RandM α}
    (h1 : Good m₁) (h2 : Good m₂) : Good (if c then m₁ else m₂) := by
  split
  · exact h1
  · exact h2

theorem good_npChoice (l : List α) : Good (npChoice l) := by
  cases l with
  | nil => exact good_raise _
  | cons a rest => exact good_bind good_draw (fun v => good_pure _)

theorem good_npRandint (lo hi : ℤ) : Good (npRandint lo hi) := by
  unfold npRandint
  exact good_ite (good_raise _) (good_bind good_draw (fun v => good_pure _))

theorem good_npBinomial : Good npBinomial :=
  good_bind good_draw (fun v => good_pure _)

theorem good_getFgAndConf (syn : Synth) (tp : String) (categories : List String) :
    Good (getFgAndConf syn tp categories) :=
  good_bind (good_npChoice _) fun cat =>
    good_bind (good_liftE _) fun objs =>
      good_bind (good_npChoice _) fun objName =>
        good_bind (good_liftE _) fun conf =>
          good_bind (good_liftE _) fun classId => good_pure _

theorem good_getBgAndConf (syn : Synth) (tp : String) :
    Good (getBgAndConf syn tp) :=
  good_bind (good_npChoice _) fun bgLabel =>
    good_bind (good_liftE _) fun conf => good_pure _

theorem good_packStep (ctx : ShelfCtx) (fgImg : Img) (classId : ℤ)
    (st : ShelfState) : Good (packStep ctx fgImg classId st) := by
  refine good_bind good_npBinomial fun isRot => ?_
  refine good_bind ?_ fun tp => ?_
  · unfold rotDraw
    exact good_ite (good_bind (good_npRandint _ _) fun angle => good_pure _) (good_pure _)
  cases ctx.shelfYs.get? ctx.shelf with
  | none => exact good_raise _
  | some shelfY =>
    refine good_ite (good_pure _) ?_
    exact good_bind (good_npRandint _ _) fun off => good_ite (good_pure _) (good_pure _)

theorem good_packLoop (ctx : ShelfCtx) (fgImg : Img) (classId : ℤ) :
    ∀ k st, Good (packLoop ctx fgImg classId k st) := by
  intro k
  induction k with
  | zero => exact fun st => good_pure _
  | succ k ih =>
    intro st
    refine good_bind (good_packStep ctx fgImg classId st) fun r => ?_
    cases r with
    | stop st' => exact good_pure _
    | cont st' => exact ih st'

theorem good_shelfLoop (ctx : ShelfCtx) (syn : Synth) (tp : String)
    (categories : List String) (objSizes : List ObjectSize) (maxObjs : ℕ) :
    ∀ fuel st, Good (shelfLoop ctx syn tp categories objSizes maxObjs fuel st) := by
  intro fuel
  induction fuel with
  | zero =>
    intro st s a s₁ h
    simp only [shelfLoop] at h
    by_cases hc : st.posX < ctx.xEnd
    · rw [if_pos hc] at h
      exact absurd h (by simp)
    · rw [if_neg hc] at h
      simp only [Except.ok.injEq, Prod.mk.injEq] at h
      obtain ⟨rfl, rfl⟩ := h
      refine ⟨le_refl _, rfl, ?_⟩
      intro t ht hag
      cases t with
      | mk tstream tidx =>
        simp only at ht
        subst ht
        simp only [shelfLoop, if_neg hc]
  | succ fuel ih =>
    intro st
    refine good_ite ?_ (good_pure _)
    refine good_bind (good_getFgAndConf _ _ _) fun fg => ?_
    refine good_bind (good_npChoice _) fun os => ?_
    refine good_bind (good_liftE _) fun sz => ?_
    refine good_bind (good_liftE _) fun fgImg => ?_
    refine good_bind (good_packLoop _ _ _ _ _) fun st' => ?_
    exact ih st'

theorem good_processShelf (env : Env) (syn : Synth) (tp : String) (shelf : ℕ)
    (bgConf : BgConf) (bgFile : String) (categories : List String) (rotPc : ℚ)
    (objSizes : List ObjectSize) (maxObjs : ℕ) (maxOffset : ℤ) (fuel : ℕ) :
    Good (processShelf env syn tp shelf bgConf bgFile categories rotPc objSizes
      maxObjs maxOffset fuel) :=
  good_shelfLoop _ _ _ _ _ _ _ _

theorem good_shelvesLoop (env : Env) (syn : Synth) (tp : String) (bgConf : BgConf)
    (bgFile : String) (categories : List String) (rotPc : ℚ)
    (objSizes : List ObjectSize) (maxObjs : ℕ) (maxOffset : ℤ) (fuel : ℕ) :
    ∀ count shelf, Good (shelvesLoop env syn tp bgConf bgFile categories rotPc
      objSizes maxObjs maxOffset fuel count shelf) := by
  intro count
  induction count with
  | zero => exact fun shelf => good_pure _
  | succ count ih =>
    intro shelf
    refine good_bind (good_processShelf _ _ _ _ _ _ _ _ _ _ _ _) fun st => ?_
    refine good_bind (ih _) fun rest => ?_
    exact good_pure _

theorem good_generateImage (env : Env) (syn : Synth) (tp : String)
    (categories : List String) (rotPc : List ℚ) (objSizes : List ObjectSize)
    (maxObjs : ℕ) (maxOffset : ℤ) (fuel : ℕ) :
    Good (generateImage env syn tp categories rotPc objSizes maxObjs maxOffset fuel) := by
  refine good_bind (good_getBgAndConf _ _) fun bg => ?_
  refine good_bind (good_npChoice _) fun rot => ?_
  refine good_bind (good_shelvesLoop _ _ _ _ _ _ _ _ _ _ _ _ _) fun shelves => ?_
  cases mergeShelves env (shelves.map fun st => (st.img, st.shelfMask)) with
  | none => exact good_raise _
  | some comp => exact good_pure _

theorem good_generateDataset (env : Env) (syn : Synth) (tp : String)
    (categories : List String) (rotPc : List ℚ) (objSizes : List ObjectSize)
    (maxObjs : ℕ) (maxOffset : ℤ) (fuel : ℕ) :
    ∀ n, Good (generateDataset env syn tp categories rotPc objSizes maxObjs
      maxOffset fuel n) := by
  intro n
  induction n with
  | zero => exact good_pure _
  | succ n ih =>
    refine good_bind (good_generateImage _ _ _ _ _ _ _ _ _) fun img => ?_
    refine good_bind ih fun rest => ?_
    exact good_pure _

/-!
### Step characterization

Evaluation lemmas for the primitives and a complete case analysis of one
inner-loop iteration (`packStep`), used by all invariant proofs.
-/

theorem npBinomial_eq (s : RngState) :
    npBinomial s = .ok (s.stream s.idx % 2, ⟨s.stream, s.idx + 1⟩) := rfl

theorem npRandint_ok {lo hi : ℤ} (h : lo < hi) (s : RngState) :
    npRandint lo hi s = .ok (lo + (s.stream s.idx : ℤ) % (hi - lo), ⟨s.stream, s.idx + 1⟩) := by
  unfold npRandint
  rw [if_neg (not_le.2 h)]
  rfl

theorem npRandint_err {lo hi : ℤ} (h : hi ≤ lo) (s : RngState) :
    npRandint lo hi s = .error .valueError := by
  unfold npRandint
  rw [if_pos h]
  rfl

@[simp] theorem rejectedState_posX (st : ShelfState) (shelfY : ℤ) (w h : ℕ) (cid : ℤ) :
    (rejectedState st shelfY w h cid).posX = st.posX + (w : ℤ) := rfl

@[simp] theorem rejectedState_posY (st : ShelfState) (shelfY : ℤ) (w h : ℕ) (cid : ℤ) :
    (rejectedState st shelfY w h cid).posY = shelfY := rfl

@[simp] theorem rejectedState_numObj (st : ShelfState) (shelfY : ℤ) (w h : ℕ) (cid : ℤ) :
    (rejectedState st shelfY w h cid).numObj = st.numObj + 1 := rfl

@[simp] theorem rejectedState_img (st : ShelfState) (shelfY : ℤ) (w h : ℕ) (cid : ℤ) :
    (rejectedState st shelfY w h cid).img = st.img := rfl

@[simp] theorem rejectedState_shelfMask (st : ShelfState) (shelfY : ℤ) (w h : ℕ) (cid : ℤ) :
    (rejectedState st shelfY w h cid).shelfMask = st.shelfMask := rfl

@[simp] theorem rejectedState_masks (st : ShelfState) (shelfY : ℤ) (w h : ℕ) (cid : ℤ) :
    (rejectedState st shelfY w h cid).masks = st.masks := rfl

@[simp] theorem rejectedState_attempts (st : ShelfState) (shelfY : ℤ) (w h : ℕ) (cid : ℤ) :
    (rejectedState st shelfY w h cid).attempts =
      st.attempts ++ [⟨st.numObj + 1, st.posX, shelfY - (h : ℤ), w, h, false, cid⟩] := rfl

@[simp] theorem acceptedState_posX (env : Env) (shelf : ℕ) (bw bh : ℕ) (st : ShelfState)
    (shelfY : ℤ) (tp : Img) (cid off : ℤ) :
    (acceptedState env shelf bw bh st shelfY tp cid off).posX = st.posX + (tp.w : ℤ) + off := rfl

@[simp] theorem acceptedState_posY (env : Env) (shelf : ℕ) (bw bh : ℕ) (st : ShelfState)
    (shelfY : ℤ) (tp : Img) (cid off : ℤ) :
    (acceptedState env shelf bw bh st shelfY tp cid off).posY = shelfY := rfl

@[simp] theorem acceptedState_numObj (env : Env) (shelf : ℕ) (bw bh : ℕ) (st : ShelfState)
    (shelfY : ℤ) (tp : Img) (cid off : ℤ) :
    (acceptedState env shelf bw bh st shelfY tp cid off).numObj = st.numObj + 1 := rfl

@[simp] theorem acceptedState_img (env : Env) (shelf : ℕ) (bw bh : ℕ) (st : ShelfState)
    (shelfY : ℤ) (tp : Img) (cid off : ℤ) :
    (acceptedState env shelf bw bh st shelfY tp cid off).img =
      compositeImg env
        (pasteAt (fun _ => 0) bw bh tp.rgba (st.posX, shelfY - (tp.h : ℤ)) tp.w tp.h)
        st.img
        (pasteAt (fun _ => 0) bw bh tp.alpha (st.posX, shelfY - (tp.h : ℤ)) tp.w tp.h) := rfl

@[simp] theorem acceptedState_shelfMask (env : Env) (shelf : ℕ) (bw bh : ℕ) (st : ShelfState)
    (shelfY : ℤ) (tp : Img) (cid off : ℤ) :
    (acceptedState env shelf bw bh st shelfY tp cid off).shelfMask =
      pasteAt st.shelfMask bw bh tp.alpha (st.posX, shelfY - (tp.h : ℤ)) tp.w tp.h := rfl

@[simp] theorem acceptedState_masks (env : Env) (shelf : ℕ) (bw bh : ℕ) (st : ShelfState)
    (shelfY : ℤ) (tp : Img) (cid off : ℤ) :
    (acceptedState env shelf bw bh st shelfY tp cid off).masks =
      st.masks ++
        [⟨maskName shelf (st.numObj + 1) cid, shelf, st.numObj + 1, cid, tp.h,
          pasteAt (fun _ => 0) bw bh tp.alpha (st.posX, shelfY - (tp.h : ℤ)) tp.w tp.h⟩] := rfl

@[simp] theorem acceptedState_attempts (env : Env) (shelf : ℕ) (bw bh : ℕ) (st : ShelfState)
    (shelfY : ℤ) (tp : Img) (cid off : ℤ) :
    (acceptedState env shelf bw bh st shelfY tp cid off).attempts =
      st.attempts ++ [⟨st.numObj + 1, st.posX, shelfY - (tp.h : ℤ), tp.w, tp.h, true, cid⟩] := rfl

/-- Complete case analysis of one successful inner-loop iteration: the shelf's
bottom y is resolved, some (possibly rotated) image `tp` is pasted or
rejected; a rejection jumps the cursor to `anchor.x + width` and stops the
pack; an acceptance draws an offset in `[1, max_offset)` (which requires
`max_offset ≥ 2`), and stops the pack exactly when the new cursor reaches the
shelf end. -/
theorem packStep_spec {ctx : ShelfCtx} {fgImg : Img} {classId : ℤ} {st : ShelfState}
    {s s' : RngState} {r : StepRes}
    (h : packStep ctx fgImg classId st s = .ok (r, s')) :
    ∃ (tp : Img) (shelfY : ℤ),
      ctx.shelfYs.get? ctx.shelf = some shelfY ∧
      ((ctx.xEnd < st.posX + (tp.w : ℤ) ∧
          r = .stop (rejectedState st shelfY tp.w tp.h classId)) ∨
        (st.posX + (tp.w : ℤ) ≤ ctx.xEnd ∧ 2 ≤ ctx.maxOffset ∧
          ∃ off : ℤ, 1 ≤ off ∧ off < ctx.maxOffset ∧
            ((ctx.xEnd ≤ st.posX + (tp.w : ℤ) + off ∧
                r = .stop (acceptedState ctx.env ctx.shelf ctx.bw ctx.bh st shelfY tp classId off)) ∨
              (st.posX + (tp.w : ℤ) + off < ctx.xEnd ∧
                r = .cont (acceptedState ctx.env ctx.shelf ctx.bw ctx.bh st shelfY tp classId off))))) := by
  unfold packStep at h
  rw [RandM.bind_def, npBinomial_eq] at h
  dsimp only at h
  rw [RandM.bind_def] at h
  cases hrot : rotDraw ctx.env fgImg (s.stream s.idx % 2) ⟨s.stream, s.idx + 1⟩ with
  | error e => rw [hrot] at h; exact absurd h (by simp)
  | ok v =>
    obtain ⟨tp, s₁⟩ := v
    rw [hrot] at h
    dsimp only at h
    refine ⟨tp, ?_⟩
    cases hy : ctx.shelfYs.get? ctx.shelf with
    | none =>
      rw [hy] at h
      exact absurd h (by simp [RandM.raise])
    | some shelfY =>
      rw [hy] at h
      dsimp only at h
      refine ⟨shelfY, rfl, ?_⟩
      by_cases hov : ctx.xEnd < st.posX + (tp.w : ℤ)
      · rw [if_pos hov] at h
        rw [RandM.pure_def] at h
        simp only [Except.ok.injEq, Prod.mk.injEq] at h
        exact Or.inl ⟨hov, h.1.symm⟩
      · rw [if_neg hov] at h
        rw [RandM.bind_def] at h
        by_cases hmo : ctx.maxOffset ≤ 1
        · rw [npRandint_err hmo] at h
          exact absurd h (by simp)
        · rw [npRandint_ok (by omega)] at h
          dsimp only at h
          set off : ℤ := 1 + (s₁.stream s₁.idx : ℤ) % (ctx.maxOffset - 1) with hoff
          have hm1 : (0 : ℤ) < ctx.maxOffset - 1 := by omega
          have hlow : (0 : ℤ) ≤ (s₁.stream s₁.idx : ℤ) % (ctx.maxOffset - 1) :=
            Int.emod_nonneg _ (by omega)
          have hhigh : (s₁.stream s₁.idx : ℤ) % (ctx.maxOffset - 1) < ctx.maxOffset - 1 :=
            Int.emod_lt_of_pos _ hm1
          refine Or.inr ⟨not_lt.1 hov, by omega, off, by omega, by omega, ?_⟩
          by_cases hbr : ctx.xEnd ≤
              (acceptedState ctx.env ctx.shelf ctx.bw ctx.bh st shelfY tp classId off).posX
          · rw [if_pos hbr] at h
            rw [RandM.pure_def] at h
            simp only [Except.ok.injEq, Prod.mk.injEq] at h
            refine Or.inl ⟨?_, h.1.symm⟩
            simpa using hbr
          · rw [if_neg hbr] at h
            rw [RandM.pure_def] at h
            simp only [Except.ok.injEq, Prod.mk.injEq] at h
            refine Or.inr ⟨?_, h.1.symm⟩
            simpa using not_le.1 hbr

/-!
### Generic loop-invariant machinery
-/

theorem pure_ok {a b : α} {s s' : RngState}
    (h : (Pure.pure a : RandM α) s = .ok (b, s')) : b = a ∧ s' = s := by
  rw [RandM.pure_def] at h
  simp only [Except.ok.injEq, Prod.mk.injEq] at h
  exact ⟨h.1.symm, h.2.symm⟩

/-- Invariant preservation through the inner pack loop: `Q` holds along
continuing states, `P` at every possible exit state. -/
theorem packLoop_pres {ctx : ShelfCtx} {fgImg : Img} {classId : ℤ}
    (P Q : ShelfState → Prop)
    (hstep : ∀ st s r s', Q st → packStep ctx fgImg classId st s = .ok (r, s') →
      (∀ st2, r = .stop st2 → P st2) ∧ (∀ st2, r = .cont st2 → Q st2))
    (hPQ : ∀ st, Q st → P st) :
    ∀ k st s st' s', Q st →
      packLoop ctx fgImg classId k st s = .ok (st', s') → P st' := by
  intro k
  induction k with
  | zero =>
    intro st s st' s' hq h
    simp only [packLoop] at h
    obtain ⟨rfl, rfl⟩ := pure_ok h
    exact hPQ _ hq
  | succ k ih =>
    intro st s st' s' hq h
    simp only [packLoop] at h
    rw [RandM.bind_def] at h
    cases hps : packStep ctx fgImg classId st s with
    | error e => rw [hps] at h; exact absurd h (by simp)
    | ok v =>
      obtain ⟨r, s₁⟩ := v
      rw [hps] at h
      dsimp only at h
      obtain ⟨hstop, hcont⟩ := hstep st s r s₁ hq hps
      cases r with
      | stop st₂ =>
        dsimp only at h
        obtain ⟨rfl, rfl⟩ := pure_ok h
        exact hstop _ rfl
      | cont st₂ =>
        dsimp only at h
        exact ih st₂ s₁ st' s' (hcont _ rfl) h

/-- Invariant preservation through the outer shelf loop. -/
theorem shelfLoop_pres {ctx : ShelfCtx} {syn : Synth} {tpath : String}
    {categories : List String} {objSizes : List ObjectSize} {maxObjs : ℕ}
    (P : ShelfState → Prop)
    (hpack : ∀ fgImg classId k st s st' s', P st → st.posX < ctx.xEnd →
      packLoop ctx fgImg classId k st s = .ok (st', s') → P st') :
    ∀ fuel st s st' s', P st →
      shelfLoop ctx syn tpath categories objSizes maxObjs fuel st s = .ok (st', s') →
        P st' := by
  intro fuel
  induction fuel with
  | zero =>
    intro st s st' s' hp h
    simp only [shelfLoop] at h
    by_cases hc : st.posX < ctx.xEnd
    · rw [if_pos hc] at h
      exact absurd h (by simp)
    · rw [if_neg hc] at h
      simp only [Except.ok.injEq, Prod.mk.injEq] at h
      obtain ⟨rfl, rfl⟩ := h
      exact hp
  | succ fuel ih =>
    intro st s st' s' hp h
    simp only [shelfLoop] at h
    by_cases hc : st.posX < ctx.xEnd
    · rw [if_pos hc] at h
      rw [RandM.bind_def] at h
      cases h1 : getFgAndConf syn tpath categories s with
      | error e => rw [h1] at h; exact absurd h (by simp)
      | ok v1 =>
        obtain ⟨fg, s₁⟩ := v1
        rw [h1] at h
        dsimp only at h
        rw [RandM.bind_def] at h
        cases h2 : npChoice objSizes s₁ with
        | error e => rw [h2] at h; exact absurd h (by simp)
        | ok v2 =>
          obtain ⟨os, s₂⟩ := v2
          rw [h2] at h
          dsimp only at h
          rw [RandM.bind_def] at h
          cases h3 : RandM.liftE (getNewImageSize fg.conf os ctx.shelfHt) s₂ with
          | error e => rw [h3] at h; exact absurd h (by simp)
          | ok v3 =>
            obtain ⟨sz, s₃⟩ := v3
            rw [h3] at h
            dsimp only at h
            rw [RandM.bind_def] at h
            cases h4 : RandM.liftE (resizeImg ctx.env (ctx.env.loadImg fg.file) sz) s₃ with
            | error e => rw [h4] at h; exact absurd h (by simp)
            | ok v4 =>
              obtain ⟨fgImg, s₄⟩ := v4
              rw [h4] at h
              dsimp only at h
              rw [RandM.bind_def] at h
              cases h5 : packLoop ctx fgImg fg.classId maxObjs st s₄ with
              | error e => rw [h5] at h; exact absurd h (by simp)
              | ok v5 =>
                obtain ⟨st₁, s₅⟩ := v5
                rw [h5] at h
                dsimp only at h
                exact ih st₁ s₅ st' s'
                  (hpack fgImg fg.classId maxObjs st s₄ st₁ s₅ hp hc h5) h
    · rw [if_neg hc] at h
      obtain ⟨rfl, rfl⟩ := pure_ok h
      exact hp

@[simp] theorem mkShelfCtx_env (env : Env) (shelf : ℕ) (bgConf : BgConf) (bgFile : String)
    (mo : ℤ) : (mkShelfCtx env shelf bgConf bgFile mo).env = env := rfl

@[simp] theorem mkShelfCtx_shelf (env : Env) (shelf : ℕ) (bgConf : BgConf) (bgFile : String)
    (mo : ℤ) : (mkShelfCtx env shelf bgConf bgFile mo).shelf = shelf := rfl

@[simp] theorem mkShelfCtx_xStart (env : Env) (shelf : ℕ) (bgConf : BgConf) (bgFile : String)
    (mo : ℤ) : (mkShelfCtx env shelf bgConf bgFile mo).xStart = bgConf.shelf_x_start := rfl

@[simp] theorem mkShelfCtx_xEnd (env : Env) (shelf : ℕ) (bgConf : BgConf) (bgFile : String)
    (mo : ℤ) : (mkShelfCtx env shelf bgConf bgFile mo).xEnd = bgConf.shelf_x_end := rfl

@[simp] theorem mkShelfCtx_shelfYs (env : Env) (shelf : ℕ) (bgConf : BgConf) (bgFile : String)
    (mo : ℤ) : (mkShelfCtx env shelf bgConf bgFile mo).shelfYs = bgConf.shelf_y_positions := rfl

@[simp] theorem mkShelfCtx_shelfHt (env : Env) (shelf : ℕ) (bgConf : BgConf) (bgFile : String)
    (mo : ℤ) : (mkShelfCtx env shelf bgConf bgFile mo).shelfHt = bgConf.shelf_ht := rfl

@[simp] theorem mkShelfCtx_maxOffset (env : Env) (shelf : ℕ) (bgConf : BgConf) (bgFile : String)
    (mo : ℤ) : (mkShelfCtx env shelf bgConf bgFile mo).maxOffset = mo := rfl

/-!
### Claim C1: shelf bound invariant
-/

/-- No attempt so far was rejected (true along the running pack: a rejection
breaks both loops, so attempts can only follow accepted ones). -/
def NoRej (st : ShelfState) : Prop := ∀ a ∈ st.attempts, a.accepted = true

/-- The C1 invariant: the cursor never retreats behind the shelf x-start,
every accepted attempt sits inside the shelf bounds, counters are bounded by
`numObj`, and a rejected attempt (if any) violates the upper bound, is the
final attempt, fixed the cursor at `anchor.x + width`, and emitted no mask. -/
def InvC1 (ctx : ShelfCtx) (st : ShelfState) : Prop :=
  ctx.xStart ≤ st.posX ∧
  (∀ a ∈ st.attempts, a.accepted = true →
    ctx.xStart ≤ a.anchorX ∧ a.anchorX + (a.width : ℤ) ≤ ctx.xEnd) ∧
  (∀ mf ∈ st.masks, mf.counter ≤ st.numObj) ∧
  (∀ a ∈ st.attempts, a.counter ≤ st.numObj) ∧
  (∀ a ∈ st.attempts, a.accepted = false →
    ctx.xEnd < a.anchorX + (a.width : ℤ) ∧
    st.attempts.getLast? = some a ∧
    st.posX = a.anchorX + (a.width : ℤ) ∧
    ∀ mf ∈ st.masks, mf.counter ≠ a.counter)

theorem invC1_step {ctx : ShelfCtx} {fgImg : Img} {classId : ℤ}
    {st : ShelfState} {s : RngState} {r : StepRes} {s' : RngState}
    (hq : InvC1 ctx st ∧ NoRej st)
    (h : packStep ctx fgImg classId st s = .ok (r, s')) :
    (∀ st2, r = .stop st2 → InvC1 ctx st2) ∧
    (∀ st2, r = .cont st2 → InvC1 ctx st2 ∧ NoRej st2) := by
  obtain ⟨⟨h0, h1, h2, h3, h4⟩, hnr⟩ := hq
  obtain ⟨tp, shelfY, hy, hcase⟩ := packStep_spec h
  have hw : (0 : ℤ) ≤ (tp.w : ℤ) := Int.natCast_nonneg _
  rcases hcase with ⟨hov, rfl⟩ | ⟨hacc, hmo, off, hoff1, hoff2, hcase2⟩
  · constructor
    · intro st2 heq
      cases heq
      refine ⟨by simp only [rejectedState_posX]; omega, ?_, ?_, ?_, ?_⟩
      · intro a ha hat
        simp only [rejectedState_attempts, List.mem_append, List.mem_singleton] at ha
        rcases ha with ha | rfl
        · exact h1 a ha hat
        · simp at hat
      · intro mf hmf
        simp only [rejectedState_masks] at hmf
        simp only [rejectedState_numObj]
        exact le_trans (h2 mf hmf) (Nat.le_succ _)
      · intro a ha
        simp only [rejectedState_attempts, List.mem_append, List.mem_singleton] at ha
        simp only [rejectedState_numObj]
        rcases ha with ha | rfl
        · exact le_trans (h3 a ha) (Nat.le_succ _)
        · exact le_refl _
      · intro a ha hat
        simp only [rejectedState_attempts, List.mem_append, List.mem_singleton] at ha
        rcases ha with ha | rfl
        · exact absurd (hnr a ha) (by simp [hat])
        · refine ⟨by simpa using hov, ?_, by simp, ?_⟩
          · simp only [rejectedState_attempts, List.getLast?_concat]
          · intro mf hmf
            simp only [rejectedState_masks] at hmf
            have := h2 mf hmf
            simp only []
            omega
    · intro st2 heq
      cases heq
  · have hinv2 : InvC1 ctx
        (acceptedState ctx.env ctx.shelf ctx.bw ctx.bh st shelfY tp classId off) ∧
        NoRej (acceptedState ctx.env ctx.shelf ctx.bw ctx.bh st shelfY tp classId off) := by
      refine ⟨⟨by simp only [acceptedState_posX]; omega, ?_, ?_, ?_, ?_⟩, ?_⟩
      · intro a ha hat
        simp only [acceptedState_attempts, List.mem_append, List.mem_singleton] at ha
        rcases ha with ha | rfl
        · exact h1 a ha hat
        · exact ⟨h0, hacc⟩
      · intro mf hmf
        simp only [acceptedState_masks, List.mem_append, List.mem_singleton] at hmf
        simp only [acceptedState_numObj]
        rcases hmf with hmf | rfl
        · exact le_trans (h2 mf hmf) (Nat.le_succ _)
        · exact le_refl _
      · intro a ha
        simp only [acceptedState_attempts, List.mem_append, List.mem_singleton] at ha
        simp only [acceptedState_numObj]
        rcases ha with ha | rfl
        · exact le_trans (h3 a ha) (Nat.le_succ _)
        · exact le_refl _
      · intro a ha hat
        simp only [acceptedState_attempts, List.mem_append, List.mem_singleton] at ha
        rcases ha with ha | rfl
        · exact absurd (hnr a ha) (by simp [hat])
        · simp at hat
      · intro a ha
        simp only [acceptedState_attempts, List.mem_append, List.mem_singleton] at ha
        rcases ha with ha | rfl
        · exact hnr a ha
        · rfl
    rcases hcase2 with ⟨hbr, rfl⟩ | ⟨hbr, rfl⟩
    · refine ⟨fun st2 heq => ?_, fun st2 heq => ?_⟩
      · cases heq
        exact hinv2.1
      · cases heq
    · refine ⟨fun st2 heq => ?_, fun st2 heq => ?_⟩
      · cases heq
      · cases heq
        exact hinv2

theorem processShelf_invC1 {env : Env} {syn : Synth} {tpath : String} {shelf : ℕ}
    {bgConf : BgConf} {bgFile : String} {categories : List String} {rotPc : ℚ}
    {objSizes : List ObjectSize} {maxObjs : ℕ} {maxOffset : ℤ} {fuel : ℕ}
    {s s' : RngState} {st : ShelfState}
    (h : processShelf env syn tpath shelf bgConf bgFile categories rotPc objSizes
      maxObjs maxOffset fuel s = .ok (st, s')) :
    InvC1 (mkShelfCtx env shelf bgConf bgFile maxOffset) st := by
  unfold processShelf at h
  refine shelfLoop_pres (InvC1 _) ?_ fuel _ s st s' ?_ h
  · intro fgImg classId k st0 s0 st1 s1 hp hlt hpl
    have hnr : NoRej st0 := by
      intro a ha
      rcases Bool.eq_false_or_eq_true a.accepted with hb | hb
      · exact hb
      · obtain ⟨hlt2, hlast, hpos, hmask⟩ := hp.2.2.2.2 a ha hb
        simp only [mkShelfCtx_xEnd] at hlt hlt2
        omega
    exact packLoop_pres (InvC1 _) (fun st => InvC1 _ st ∧ NoRej st)
      (fun st2 s2 r2 s3 hq2 hs2 => invC1_step hq2 hs2)
      (fun st2 hq2 => hq2.1) k st0 s0 st1 s1 ⟨hp, hnr⟩ hpl
  · unfold InvC1 initShelfState
    refine ⟨?_, ?_, ?_, ?_, ?_⟩ <;> simp [mkShelfCtx]

/-- **C1** (shelf bound invariant): in every successful run of the shelf
packer, every accepted attempt satisfies
`x_start ≤ anchor.x` and `anchor.x + width ≤ x_end`; a rejected (overflowing)
attempt violates the upper bound, emits no mask (no emitted file carries its
counter), is the last attempt of the shelf (terminating the pack), leaves the
cursor at `anchor.x + width`, and that cursor exceeds `x_end` (terminating
the shelf). -/
theorem claim1_shelf_bound_invariant
    (env : Env) (syn : Synth) (tpath : String) (shelf : ℕ) (bgConf : BgConf)
    (bgFile : String) (categories : List String) (rotPc : ℚ)
    (objSizes : List ObjectSize) (maxObjs : ℕ) (maxOffset : ℤ) (fuel : ℕ)
    (s s' : RngState) (st : ShelfState)
    (h : processShelf env syn tpath shelf bgConf bgFile categories rotPc objSizes
      maxObjs maxOffset fuel s = .ok (st, s')) :
    (∀ a ∈ st.attempts, a.accepted = true →
      bgConf.shelf_x_start ≤ a.anchorX ∧ a.anchorX + (a.width : ℤ) ≤ bgConf.shelf_x_end) ∧
    (∀ a ∈ st.attempts, a.accepted = false →
      bgConf.shelf_x_end < a.anchorX + (a.width : ℤ) ∧
      (∀ mf ∈ st.masks, mf.counter ≠ a.counter) ∧
      st.attempts.getLast? = some a ∧
      st.posX = a.anchorX + (a.width : ℤ) ∧
      bgConf.shelf_x_end < st.posX) := by
  obtain ⟨h0, h1, h2, h3, h4⟩ := processShelf_invC1 h
  simp only [mkShelfCtx_xStart, mkShelfCtx_xEnd] at h1 h4
  refine ⟨h1, ?_⟩
  intro a ha hb
  obtain ⟨hlt2, hlast, hpos, hmask⟩ := h4 a ha hb
  exact ⟨hlt2, hmask, hlast, hpos, by omega⟩

theorem pasteAt_of_mem {base : Pix} {bw bh : ℕ} {ov : Pix} {pos : ℤ × ℤ} {w h : ℕ}
    {p : ℤ × ℤ} (hc : inPaste bw bh pos w h p) :
    pasteAt base bw bh ov pos w h p = ov (p.1 - pos.1, p.2 - pos.2) := by
  unfold pasteAt
  rw [if_pos hc]

theorem pasteAt_of_not_mem {base : Pix} {bw bh : ℕ} {ov : Pix} {pos : ℤ × ℤ} {w h : ℕ}
    {p : ℤ × ℤ} (hc : ¬ inPaste bw bh pos w h p) :
    pasteAt base bw bh ov pos w h p = base p := by
  unfold pasteAt
  rw [if_neg hc]

theorem compositeImg_of_zero {env : Env} {fg bg mask : Pix} {p : ℤ × ℤ}
    (h : mask p = 0) : compositeImg env fg bg mask p = bg p := by
  unfold compositeImg
  rw [if_pos h]

theorem compositeImg_of_full {env : Env} {fg bg mask : Pix} {p : ℤ × ℤ}
    (h : mask p = 255) : compositeImg env fg bg mask p = fg p := by
  unfold compositeImg
  rw [if_neg (by rw [h]; decide), if_pos h]

/-!
### Claim C2: mask-placement correspondence
-/

/-- The C2 invariant: as many emitted mask files as accepted attempts, and
every emitted mask is non-transparent only inside the shelf's vertical band
`[shelf_y - height, shelf_y)`. -/
def InvC2 (ctx : ShelfCtx) (st : ShelfState) : Prop :=
  st.masks.length = (st.attempts.filter (fun a => a.accepted)).length ∧
  ∀ mf ∈ st.masks, ∀ shelfY : ℤ, ctx.shelfYs.get? ctx.shelf = some shelfY →
    ∀ p : ℤ × ℤ, mf.content p ≠ 0 → shelfY - (mf.height : ℤ) ≤ p.2 ∧ p.2 < shelfY

theorem invC2_step {ctx : ShelfCtx} {fgImg : Img} {classId : ℤ}
    {st : ShelfState} {s : RngState} {r : StepRes} {s' : RngState}
    (hq : InvC2 ctx st)
    (h : packStep ctx fgImg classId st s = .ok (r, s')) :
    (∀ st2, r = .stop st2 → InvC2 ctx st2) ∧
    (∀ st2, r = .cont st2 → InvC2 ctx st2) := by
  obtain ⟨hlen, hband⟩ := hq
  obtain ⟨tp, shelfY, hy, hcase⟩ := packStep_spec h
  rcases hcase with ⟨hov, rfl⟩ | ⟨hacc, hmo, off, hoff1, hoff2, hcase2⟩
  · refine ⟨fun st2 heq => ?_, fun st2 heq => ?_⟩
    · cases heq
      constructor
      · simp only [rejectedState_masks, rejectedState_attempts, List.filter_append,
          List.length_append, hlen, List.filter_cons, List.filter_nil]
        simp
      · intro mf hmf
        simp only [rejectedState_masks] at hmf
        exact hband mf hmf
    · cases heq
  · have hinv2 : InvC2 ctx
        (acceptedState ctx.env ctx.shelf ctx.bw ctx.bh st shelfY tp classId off) := by
      constructor
      · simp only [acceptedState_masks, acceptedState_attempts, List.filter_append,
          List.length_append, hlen, List.filter_cons, List.filter_nil]
        simp
      · intro mf hmf shelfY2 hy2 p hne
        simp only [acceptedState_masks, List.mem_append, List.mem_singleton] at hmf
        rcases hmf with hmf | rfl
        · exact hband mf hmf shelfY2 hy2 p hne
        · rw [hy] at hy2
          cases hy2
          dsimp only at hne ⊢
          by_cases hc : inPaste ctx.bw ctx.bh (st.posX, shelfY - (tp.h : ℤ)) tp.w tp.h p
          · obtain ⟨hb1, hb2, hb3, hb4, hr1, hr2, hr3, hr4⟩ := hc
            simp only at hr3 hr4
            constructor
            · omega
            · omega
          · rw [pasteAt_of_not_mem hc] at hne
            exact absurd rfl hne
    rcases hcase2 with ⟨hbr, rfl⟩ | ⟨hbr, rfl⟩
    · refine ⟨fun st2 heq => ?_, fun st2 heq => ?_⟩
      · cases heq
        exact hinv2
      · cases heq
    · refine ⟨fun st2 heq => ?_, fun st2 heq => ?_⟩
      · cases heq
      · cases heq
        exact hinv2

theorem processShelf_invC2 {env : Env} {syn : Synth} {tpath : String} {shelf : ℕ}
    {bgConf : BgConf} {bgFile : String} {categories : List String} {rotPc : ℚ}
    {objSizes : List ObjectSize} {maxObjs : ℕ} {maxOffset : ℤ} {fuel : ℕ}
    {s s' : RngState} {st : ShelfState}
    (h : processShelf env syn tpath shelf bgConf bgFile categories rotPc objSizes
      maxObjs maxOffset fuel s = .ok (st, s')) :
    InvC2 (mkShelfCtx env shelf bgConf bgFile maxOffset) st := by
  unfold processShelf at h
  refine shelfLoop_pres (InvC2 _) ?_ fuel _ s st s' ?_ h
  · intro fgImg classId k st0 s0 st1 s1 hp hlt hpl
    exact packLoop_pres (InvC2 _) (InvC2 _)
      (fun st2 s2 r2 s3 hq2 hs2 => invC2_step hq2 hs2)
      (fun st2 hq2 => hq2) k st0 s0 st1 s1 hp hpl
  · unfold InvC2 initShelfState
    simp

/-- **C2** (mask-placement correspondence): in every successful run of the
shelf packer, the number of emitted mask files equals the number of accepted
(non-overflowed) placement attempts, and every emitted mask's non-transparent
pixels lie inside the shelf's vertical band
`[shelf_y_position - placement_height, shelf_y_position)`, where the
placement height is the (possibly rotation-expanded) height recorded with the
mask. -/
theorem claim2_mask_placement_correspondence
    (env : Env) (syn : Synth) (tpath : String) (shelf : ℕ) (bgConf : BgConf)
    (bgFile : String) (categories : List String) (rotPc : ℚ)
    (objSizes : List ObjectSize) (maxObjs : ℕ) (maxOffset : ℤ) (fuel : ℕ)
    (s s' : RngState) (st : ShelfState) (shelfY : ℤ)
    (h : processShelf env syn tpath shelf bgConf bgFile categories rotPc objSizes
      maxObjs maxOffset fuel s = .ok (st, s'))
    (hy : bgConf.shelf_y_positions.get? shelf = some shelfY) :
    st.masks.length = (st.attempts.filter (fun a => a.accepted)).length ∧
    ∀ mf ∈ st.masks, ∀ p : ℤ × ℤ, mf.content p ≠ 0 →
      shelfY - (mf.height : ℤ) ≤ p.2 ∧ p.2 < shelfY := by
  obtain ⟨hlen, hband⟩ := processShelf_invC2 h
  refine ⟨hlen, ?_⟩
  intro mf hmf p hne
  exact hband mf hmf shelfY (by simpa using hy) p hne

/-!
### Claim C9: mask file naming and counter discipline
-/

/-- The C9 invariant: `num_obj` counts the attempts, the n-th attempt (1-based)
consumed counter value n (the counter is incremented once per attempt,
rejected ones included), and the emitted mask files are exactly the accepted
attempts in order, each named `mask_<shelf><counter>$<class_id>.png`. -/
def InvC9 (ctx : ShelfCtx) (st : ShelfState) : Prop :=
  st.numObj = st.attempts.length ∧
  st.attempts.map (fun a => a.counter) = List.range' 1 st.attempts.length ∧
  st.masks.map (fun mf => (mf.name, mf.counter, mf.classId)) =
    (st.attempts.filter (fun a => a.accepted)).map
      (fun a => (maskName ctx.shelf a.counter a.classId, a.counter, a.classId))

theorem invC9_step {ctx : ShelfCtx} {fgImg : Img} {classId : ℤ}
    {st : ShelfState} {s : RngState} {r : StepRes} {s' : RngState}
    (hq : InvC9 ctx st)
    (h : packStep ctx fgImg classId st s = .ok (r, s')) :
    (∀ st2, r = .stop st2 → InvC9 ctx st2) ∧
    (∀ st2, r = .cont st2 → InvC9 ctx st2) := by
  obtain ⟨hnum, hctr, hmask⟩ := hq
  obtain ⟨tp, shelfY, hy, hcase⟩ := packStep_spec h
  rcases hcase with ⟨hov, rfl⟩ | ⟨hacc, hmo, off, hoff1, hoff2, hcase2⟩
  · refine ⟨fun st2 heq => ?_, fun st2 heq => ?_⟩
    · cases heq
      refine ⟨?_, ?_, ?_⟩
      · simp only [rejectedState_numObj, rejectedState_attempts, List.length_append,
          List.length_singleton, hnum]
      · simp only [rejectedState_attempts, List.map_append, List.length_append,
          List.length_singleton, hctr, List.map_cons, List.map_nil]
        rw [List.range'_1_concat]
        simp [hnum, Nat.add_comm]
      · simp only [rejectedState_masks, rejectedState_attempts, List.filter_append,
          List.filter_cons, List.filter_nil]
        simpa using hmask
    · cases heq
  · have hinv2 : InvC9 ctx
        (acceptedState ctx.env ctx.shelf ctx.bw ctx.bh st shelfY tp classId off) := by
      refine ⟨?_, ?_, ?_⟩
      · simp only [acceptedState_numObj, acceptedState_attempts, List.length_append,
          List.length_singleton, hnum]
      · simp only [acceptedState_attempts, List.map_append, List.length_append,
          List.length_singleton, hctr, List.map_cons, List.map_nil]
        rw [List.range'_1_concat]
        simp [hnum, Nat.add_comm]
      · simp only [acceptedState_masks, acceptedState_attempts, List.filter_append,
          List.filter_cons, List.filter_nil, List.map_append, hmask]
        simp
    rcases hcase2 with ⟨hbr, rfl⟩ | ⟨hbr, rfl⟩
    · refine ⟨fun st2 heq => ?_, fun st2 heq => ?_⟩
      · cases heq
        exact hinv2
      · cases heq
    · refine ⟨fun st2 heq => ?_, fun st2 heq => ?_⟩
      · cases heq
      · cases heq
        exact hinv2

theorem processShelf_invC9 {env : Env} {syn : Synth} {tpath : String} {shelf : ℕ}
    {bgConf : BgConf} {bgFile : String} {categories : List String} {rotPc : ℚ}
    {objSizes : List ObjectSize} {maxObjs : ℕ} {maxOffset : ℤ} {fuel : ℕ}
    {s s' : RngState} {st : ShelfState}
    (h : processShelf env syn tpath shelf bgConf bgFile categories rotPc objSizes
      maxObjs maxOffset fuel s = .ok (st, s')) :
    InvC9 (mkShelfCtx env shelf bgConf bgFile maxOffset) st := by
  unfold processShelf at h
  refine shelfLoop_pres (InvC9 _) ?_ fuel _ s st s' ?_ h
  · intro fgImg classId k st0 s0 st1 s1 hp hlt hpl
    exact packLoop_pres (InvC9 _) (InvC9 _)
      (fun st2 s2 r2 s3 hq2 hs2 => invC9_step hq2 hs2)
      (fun st2 hq2 => hq2) k st0 s0 st1 s1 hp hpl
  · unfold InvC9 initShelfState
    simp

/-- **C9** (mask naming and counter discipline): in every successful run of
the shelf packer, the per-shelf object counter starts at 0 and is incremented
once per attempted placement (rejected ones included) — the n-th attempt
consumes counter value n — and the emitted mask files are exactly the
accepted attempts, in order, the file for counter value `c` and class id `k`
being named `mask_<shelf><c>$<k>.png` with no separator or zero padding; a
rejected attempt consumes a counter value but produces no file. -/
theorem claim9_mask_naming
    (env : Env) (syn : Synth) (tpath : String) (shelf : ℕ) (bgConf : BgConf)
    (bgFile : String) (categories : List String) (rotPc : ℚ)
    (objSizes : List ObjectSize) (maxObjs : ℕ) (maxOffset : ℤ) (fuel : ℕ)
    (s s' : RngState) (st : ShelfState)
    (h : processShelf env syn tpath shelf bgConf bgFile categories rotPc objSizes
      maxObjs maxOffset fuel s = .ok (st, s')) :
    st.numObj = st.attempts.length ∧
    st.attempts.map (fun a => a.counter) = List.range' 1 st.attempts.length ∧
    st.masks.map (fun mf => (mf.name, mf.counter, mf.classId)) =
      (st.attempts.filter (fun a => a.accepted)).map
        (fun a => (maskName shelf a.counter a.classId, a.counter, a.classId)) := by
  have := processShelf_invC9 h
  simpa [InvC9, mkShelfCtx_shelf] using this

/-!
### Claim C6: layered shelf compositing
-/

/-- The C6 invariant for one shelf run against the opened background `bg`:
the accumulated mask is nonzero only strictly left of the cursor, and the
running image still equals the background wherever the accumulated mask is
zero. -/
def InvC6 (ctx : ShelfCtx) (bg : Pix) (st : ShelfState) : Prop :=
  (∀ p : ℤ × ℤ, st.shelfMask p ≠ 0 → p.1 < st.posX) ∧
  (∀ p : ℤ × ℤ, st.shelfMask p = 0 → st.img p = bg p)

theorem invC6_step {ctx : ShelfCtx} {bg : Pix} {fgImg : Img} {classId : ℤ}
    {st : ShelfState} {s : RngState} {r : StepRes} {s' : RngState}
    (hq : InvC6 ctx bg st)
    (h : packStep ctx fgImg classId st s = .ok (r, s')) :
    (∀ st2, r = .stop st2 → InvC6 ctx bg st2) ∧
    (∀ st2, r = .cont st2 → InvC6 ctx bg st2) := by
  obtain ⟨hA, hB⟩ := hq
  obtain ⟨tp, shelfY, hy, hcase⟩ := packStep_spec h
  have hw : (0 : ℤ) ≤ (tp.w : ℤ) := Int.natCast_nonneg _
  rcases hcase with ⟨hov, rfl⟩ | ⟨hacc, hmo, off, hoff1, hoff2, hcase2⟩
  · refine ⟨fun st2 heq => ?_, fun st2 heq => ?_⟩
    · cases heq
      refine ⟨?_, ?_⟩
      · intro p hne
        simp only [rejectedState_shelfMask] at hne
        simp only [rejectedState_posX]
        have := hA p hne
        omega
      · intro p hz
        simp only [rejectedState_shelfMask] at hz
        simp only [rejectedState_img]
        exact hB p hz
    · cases heq
  · have hinv2 : InvC6 ctx bg
        (acceptedState ctx.env ctx.shelf ctx.bw ctx.bh st shelfY tp classId off) := by
      constructor
      · intro p hne
        simp only [acceptedState_shelfMask] at hne
        simp only [acceptedState_posX]
        by_cases hc : inPaste ctx.bw ctx.bh (st.posX, shelfY - (tp.h : ℤ)) tp.w tp.h p
        · obtain ⟨hb1, hb2, hb3, hb4, hr1, hr2, hr3, hr4⟩ := hc
          simp only at hr2
          omega
        · rw [pasteAt_of_not_mem hc] at hne
          have := hA p hne
          omega
      · intro p hz
        simp only [acceptedState_shelfMask] at hz
        simp only [acceptedState_img]
        by_cases hc : inPaste ctx.bw ctx.bh (st.posX, shelfY - (tp.h : ℤ)) tp.w tp.h p
        · rw [pasteAt_of_mem hc] at hz
          have hna : pasteAt (fun _ => 0) ctx.bw ctx.bh tp.alpha
              (st.posX, shelfY - (tp.h : ℤ)) tp.w tp.h p = 0 := by
            rw [pasteAt_of_mem hc]
            exact hz
          rw [compositeImg_of_zero hna]
          have hold : st.shelfMask p = 0 := by
            by_contra hntz
            have hlt := hA p hntz
            obtain ⟨hb1, hb2, hb3, hb4, hr1, hr2, hr3, hr4⟩ := hc
            simp only at hr1
            omega
          exact hB p hold
        · rw [pasteAt_of_not_mem hc] at hz
          have hna : pasteAt (fun _ => 0) ctx.bw ctx.bh tp.alpha
              (st.posX, shelfY - (tp.h : ℤ)) tp.w tp.h p = 0 := by
            rw [pasteAt_of_not_mem hc]
          rw [compositeImg_of_zero hna]
          exact hB p hz
    rcases hcase2 with ⟨hbr, rfl⟩ | ⟨hbr, rfl⟩
    · refine ⟨fun st2 heq => ?_, fun st2 heq => ?_⟩
      · cases heq
        exact hinv2
      · cases heq
    · refine ⟨fun st2 heq => ?_, fun st2 heq => ?_⟩
      · cases heq
      · cases heq
        exact hinv2

/-- Outside its accumulated mask, a shelf's result image is the untouched
background. -/
theorem processShelf_outside_mask {env : Env} {syn : Synth} {tpath : String}
    {shelf : ℕ} {bgConf : BgConf} {bgFile : String} {categories : List String}
    {rotPc : ℚ} {objSizes : List ObjectSize} {maxObjs : ℕ} {maxOffset : ℤ}
    {fuel : ℕ} {s s' : RngState} {st : ShelfState}
    (h : processShelf env syn tpath shelf bgConf bgFile categories rotPc objSizes
      maxObjs maxOffset fuel s = .ok (st, s')) :
    ∀ p : ℤ × ℤ, st.shelfMask p = 0 → st.img p = env.bgPix bgFile p := by
  have hinv : InvC6 (mkShelfCtx env shelf bgConf bgFile maxOffset) (env.bgPix bgFile) st := by
    unfold processShelf at h
    refine shelfLoop_pres (InvC6 _ _) ?_ fuel _ s st s' ?_ h
    · intro fgImg classId k st0 s0 st1 s1 hp hlt hpl
      exact packLoop_pres (InvC6 _ _) (InvC6 _ _)
        (fun st2 s2 r2 s3 hq2 hs2 => invC6_step hq2 hs2)
        (fun st2 hq2 => hq2) k st0 s0 st1 s1 hp hpl
    · unfold InvC6 initShelfState
      simp
  exact hinv.2

theorem foldl_composite_untouched (env : Env) :
    ∀ (l : List (Pix × Pix)) (acc : Pix) (p : ℤ × ℤ),
      (∀ pm ∈ l, pm.2 p = 0) →
      l.foldl (fun acc2 pm => compositeImg env pm.1 acc2 pm.2) acc p = acc p := by
  intro l
  induction l with
  | nil => intro acc p h; rfl
  | cons x xs ih =>
    intro acc p h
    simp only [List.foldl_cons]
    rw [ih _ p (fun pm hm => h pm (List.mem_cons_of_mem _ hm))]
    exact compositeImg_of_zero (h x (List.mem_cons_self _ _))

theorem foldl_composite_full (env : Env) :
    ∀ (l : List (Pix × Pix)) (acc : Pix) (p : ℤ × ℤ) (i : ℕ) (hi : i < l.length),
      (l.get ⟨i, hi⟩).2 p = 255 →
      (∀ j (hj : j < l.length), i < j → (l.get ⟨j, hj⟩).2 p = 0) →
      l.foldl (fun acc2 pm => compositeImg env pm.1 acc2 pm.2) acc p =
        (l.get ⟨i, hi⟩).1 p := by
  intro l
  induction l with
  | nil => intro acc p i hi; exact absurd hi (by simp)
  | cons x xs ih =>
    intro acc p i hi h255 hafter
    cases i with
    | zero =>
      simp only [List.foldl_cons]
      have hxs : ∀ pm ∈ xs, pm.2 p = 0 := by
        intro pm hm
        obtain ⟨⟨j, hj⟩, rfl⟩ := List.mem_iff_get.1 hm
        have h2 := hafter (j + 1) (by simpa using hj) (Nat.succ_pos _)
        simpa using h2
      rw [foldl_composite_untouched env xs _ p hxs]
      exact compositeImg_of_full (by simpa using h255)
    | succ i =>
      simp only [List.foldl_cons]
      refine ih _ p i (by simpa using hi) (by simpa using h255) ?_
      intro j hj hij
      have h2 := hafter (j + 1) (by simpa using hj) (by omega)
      simpa using h2

theorem mergeShelves_untouched {env : Env} {l : List (Pix × Pix)} {c : Pix}
    {p : ℤ × ℤ} (hm : mergeShelves env l = some c) (h0 : ∀ pm ∈ l, pm.2 p = 0) :
    ∃ hd rest, l = hd :: rest ∧ c p = hd.1 p := by
  cases l with
  | nil => simp [mergeShelves] at hm
  | cons hd rest =>
    refine ⟨hd, rest, rfl, ?_⟩
    simp only [mergeShelves, Option.some.injEq] at hm
    subst hm
    exact foldl_composite_untouched env rest hd.1 p
      (fun pm hmem => h0 pm (List.mem_cons_of_mem _ hmem))

theorem mergeShelves_full {env : Env} {l : List (Pix × Pix)} {c : Pix}
    {p : ℤ × ℤ} (hm : mergeShelves env l = some c)
    (j : ℕ) (hj : j < l.length) (h255 : (l.get ⟨j, hj⟩).2 p = 255)
    (hafter : ∀ k (hk : k < l.length), j < k → (l.get ⟨k, hk⟩).2 p = 0) :
    c p = (l.get ⟨j, hj⟩).1 p := by
  cases l with
  | nil => exact absurd hj (by simp)
  | cons hd rest =>
    simp only [mergeShelves, Option.some.injEq] at hm
    subst hm
    cases j with
    | zero =>
      have hxs : ∀ pm ∈ rest, pm.2 p = 0 := by
        intro pm hmem
        obtain ⟨⟨k, hk⟩, rfl⟩ := List.mem_iff_get.1 hmem
        have h2 := hafter (k + 1) (by simpa using hk) (Nat.succ_pos _)
        simpa using h2
      rw [foldl_composite_untouched env rest hd.1 p hxs]
      simp
    | succ j =>
      have := foldl_composite_full env rest hd.1 p j (by simpa using hj)
        (by simpa using h255) ?_
      · simpa using this
      · intro k hk hjk
        have h2 := hafter (k + 1) (by simpa using hk) (by omega)
        simpa using h2

theorem shelvesLoop_outside {env : Env} {syn : Synth} {tpath : String}
    {bgConf : BgConf} {bgFile : String} {categories : List String} {rotPc : ℚ}
    {objSizes : List ObjectSize} {maxObjs : ℕ} {maxOffset : ℤ} {fuel : ℕ} :
    ∀ (count shelf : ℕ) (s : RngState) (lst : List ShelfState) (s' : RngState),
      shelvesLoop env syn tpath bgConf bgFile categories rotPc objSizes maxObjs
        maxOffset fuel count shelf s = .ok (lst, s') →
      ∀ st ∈ lst, ∀ p : ℤ × ℤ, st.shelfMask p = 0 → st.img p = env.bgPix bgFile p := by
  intro count
  induction count with
  | zero =>
    intro shelf s lst s' h st hst
    simp only [shelvesLoop] at h
    obtain ⟨rfl, rfl⟩ := pure_ok h
    exact absurd hst (List.not_mem_nil _)
  | succ count ih =>
    intro shelf s lst s' h st hst p hz
    simp only [shelvesLoop] at h
    rw [RandM.bind_def] at h
    cases h1 : processShelf env syn tpath shelf bgConf bgFile categories rotPc
        objSizes maxObjs maxOffset fuel s with
    | error e => rw [h1] at h; exact absurd h (by simp)
    | ok v1 =>
      obtain ⟨st1, s1⟩ := v1
      rw [h1] at h
      dsimp only at h
      rw [RandM.bind_def] at h
      cases h2 : shelvesLoop env syn tpath bgConf bgFile categories rotPc objSizes
          maxObjs maxOffset fuel count (shelf + 1) s1 with
      | error e => rw [h2] at h; exact absurd h (by simp)
      | ok v2 =>
        obtain ⟨rest, s2⟩ := v2
        rw [h2] at h
        dsimp only at h
        obtain ⟨rfl, rfl⟩ := pure_ok h
        rcases List.mem_cons.1 hst with rfl | hmem
        · exact processShelf_outside_mask h1 p hz
        · exact ih _ _ _ _ h2 st hmem p hz

/-- **C6** (layered shelf compositing): in every successful per-image run,
shelf results are merged in ascending shelf-index order starting from the
background; a pixel outside every shelf's accumulated mask equals the
corresponding background pixel, and where masked regions overlap, a pixel at
which the higher-index shelf's mask is fully opaque (and which no later shelf
masks) shows the higher-index shelf's content. -/
theorem claim6_shelf_compositing
    (env : Env) (syn : Synth) (tpath : String) (categories : List String)
    (rotPc : List ℚ) (objSizes : List ObjectSize) (maxObjs : ℕ) (maxOffset : ℤ)
    (fuel : ℕ) (s s' : RngState) (out : ImageOut)
    (h : generateImage env syn tpath categories rotPc objSizes maxObjs maxOffset
      fuel s = .ok (out, s')) :
    (∀ p : ℤ × ℤ, (∀ st ∈ out.shelves, st.shelfMask p = 0) →
      out.composite p = env.bgPix out.bgFile p) ∧
    (∀ (p : ℤ × ℤ) (i j : ℕ) (hi : i < out.shelves.length)
        (hj : j < out.shelves.length), i < j →
      (out.shelves.get ⟨i, hi⟩).shelfMask p ≠ 0 →
      (out.shelves.get ⟨j, hj⟩).shelfMask p = 255 →
      (∀ k (hk : k < out.shelves.length), j < k →
        (out.shelves.get ⟨k, hk⟩).shelfMask p = 0) →
      out.composite p = (out.shelves.get ⟨j, hj⟩).img p) := by
  unfold generateImage at h
  rw [RandM.bind_def] at h
  cases h1 : getBgAndConf syn tpath s with
  | error e => rw [h1] at h; exact absurd h (by simp)
  | ok v1 =>
    obtain ⟨bg, s₁⟩ := v1
    rw [h1] at h
    dsimp only at h
    rw [RandM.bind_def] at h
    cases h2 : npChoice rotPc s₁ with
    | error e => rw [h2] at h; exact absurd h (by simp)
    | ok v2 =>
      obtain ⟨rot, s₂⟩ := v2
      rw [h2] at h
      dsimp only at h
      rw [RandM.bind_def] at h
      cases h3 : shelvesLoop env syn tpath bg.2 bg.1 categories rot objSizes maxObjs
          maxOffset fuel bg.2.num_shelves 0 s₂ with
      | error e => rw [h3] at h; exact absurd h (by simp)
      | ok v3 =>
        obtain ⟨shelves, s₃⟩ := v3
        rw [h3] at h
        dsimp only at h
        cases hmg : mergeShelves env (shelves.map fun st => (st.img, st.shelfMask)) with
        | none => rw [hmg] at h; exact absurd h (by simp [RandM.raise])
        | some comp =>
          rw [hmg] at h
          dsimp only at h
          obtain ⟨rfl, rfl⟩ := pure_ok h
          have houts := shelvesLoop_outside _ _ _ _ _ h3
          constructor
          · intro p hall
            dsimp only at hall ⊢
            have h0 : ∀ pm : Pix × Pix,
                pm ∈ shelves.map (fun st => (st.img, st.shelfMask)) → pm.2 p = 0 := by
              intro pm hmem
              obtain ⟨st, hst, rfl⟩ := List.mem_map.1 hmem
              exact hall st hst
            obtain ⟨hd, rest, hl, hc⟩ := mergeShelves_untouched hmg h0
            cases shelves with
            | nil => exact absurd hl (by simp)
            | cons st0 srest =>
              simp only [List.map_cons, List.cons.injEq] at hl
              obtain ⟨rfl, rfl⟩ := hl
              rw [hc]
              dsimp only
              exact houts st0 (List.mem_cons_self _ _) p
                (hall st0 (List.mem_cons_self _ _))
          · intro p i j hi hj hij hnz h255 hafter
            dsimp only at hi hj hnz h255 hafter ⊢
            have hlen : (shelves.map fun st => (st.img, st.shelfMask)).length =
                shelves.length := List.length_map _ _
            have hjm : j < (shelves.map fun st => (st.img, st.shelfMask)).length := by
              rw [hlen]; exact hj
            have hget : ∀ (k : ℕ) (hk : k < shelves.length),
                (shelves.map fun st => (st.img, st.shelfMask)).get ⟨k, by rw [hlen]; exact hk⟩ =
                  ((shelves.get ⟨k, hk⟩).img, (shelves.get ⟨k, hk⟩).shelfMask) := by
              intro k hk
              simp [List.get_eq_getElem, List.getElem_map]
            have := @mergeShelves_full env _ comp p hmg j hjm ?_ ?_
            · rw [this, hget j hj]
            · rw [hget j hj]
              exact h255
            · intro k hk hjk
              rw [hget k (by rw [hlen] at hk; exact hk)]
              dsimp only
              exact hafter k (by rw [hlen] at hk; exact hk) hjk

/-!
### Claim C10: termination of the shelf-packing loop
-/

/-- `m` never raises the artificial fuel-exhaustion marker: every error it
produces is a genuine Python exception. -/
def NoFuel (m : RandM α) : Prop := ∀ s e, m s = .error e → e ≠ .fuelOut

theorem noFuel_pure (a : α) : NoFuel (Pure.pure a : RandM α) := by
  intro s e h
  rw [RandM.pure_def] at h
  exact absurd h (by simp)

theorem noFuel_raise {e0 : Err} (he : e0 ≠ .fuelOut) : NoFuel (RandM.raise e0 : RandM α) := by
  intro s e h
  simp only [RandM.raise, Except.error.injEq] at h
  subst h
  exact he

theorem noFuel_liftE {ex : Except Err α} (he : ∀ e, ex = .error e → e ≠ .fuelOut) :
    NoFuel (RandM.liftE ex) := by
  intro s e h
  cases ex with
  | error e1 =>
    simp only [RandM.liftE, Except.error.injEq] at h
    rw [← h]
    exact he e1 rfl
  | ok a => simp [RandM.liftE] at h

theorem noFuel_draw : NoFuel RandM.draw := by
  intro s e h
  simp [RandM.draw] at h

theorem noFuel_bind {m : RandM α} {f : α → RandM β} (hm : NoFuel m)
    (hf : ∀ a, NoFuel (f a)) : NoFuel (m >>= f) := by
  intro s e h
  rw [RandM.bind_def] at h
  cases hms : m s with
  | error e1 =>
    rw [hms] at h
    simp only [Except.error.injEq] at h
    rw [← h]
    exact hm s e1 hms
  | ok v =>
    obtain ⟨a, s₁⟩ := v
    rw [hms] at h
    exact hf a s₁ e h

theorem noFuel_ite {c : Prop} [Decidable c] {m₁ m₂ : RandM α}
    (h1 : NoFuel m₁) (h2 : NoFuel m₂) : NoFuel (if c then m₁ else m₂) := by
  split
  · exact h1
  · exact h2

theorem noFuel_npChoice (l : List α) : NoFuel (npChoice l) := by
  cases l with
  | nil => exact noFuel_raise (by decide)
  | cons a rest => exact noFuel_bind noFuel_draw (fun v => noFuel_pure _)

theorem noFuel_npRandint (lo hi : ℤ) : NoFuel (npRandint lo hi) := by
  unfold npRandint
  exact noFuel_ite (noFuel_raise (by decide)) (noFuel_bind noFuel_draw (fun v => noFuel_pure _))

theorem noFuel_npBinomial : NoFuel npBinomial :=
  noFuel_bind noFuel_draw (fun v => noFuel_pure _)

theorem pyLookup_err {l : List (String × β)} {k : String} {e : Err}
    (h : pyLookup l k = .error e) : e = .keyError := by
  unfold pyLookup at h
  cases hl : List.lookup k l with
  | none =>
    rw [hl] at h
    simpa using h.symm
  | some v =>
    rw [hl] at h
    simp at h

theorem getNewImageSize_err {conf : ObjConf} {os : ObjectSize} {sh : ℤ} {e : Err}
    (h : getNewImageSize conf os sh = .error e) : e = .zeroDivisionError := by
  unfold getNewImageSize at h
  split at h
  · simpa using h.symm
  · simp at h

theorem resizeImg_err {env : Env} {img : Img} {sz : ℤ × ℤ} {e : Err}
    (h : resizeImg env img sz = .error e) : e = .valueError := by
  unfold resizeImg at h
  split at h
  · simpa using h.symm
  · simp at h

theorem noFuel_getFgAndConf (syn : Synth) (tpath : String) (categories : List String) :
    NoFuel (getFgAndConf syn tpath categories) := by
  refine noFuel_bind (noFuel_npChoice _) fun cat => ?_
  refine noFuel_bind (noFuel_liftE ?_) fun objs => ?_
  · intro e he
    rw [pyLookup_err he]
    decide
  refine noFuel_bind (noFuel_npChoice _) fun objName => ?_
  refine noFuel_bind (noFuel_liftE ?_) fun conf => ?_
  · intro e he
    rw [pyLookup_err he]
    decide
  refine noFuel_bind (noFuel_liftE ?_) fun classId => ?_
  · intro e he
    rw [pyLookup_err he]
    decide
  exact noFuel_pure _

theorem noFuel_rotDraw (env : Env) (fgImg : Img) (isRot : ℕ) :
    NoFuel (rotDraw env fgImg isRot) := by
  unfold rotDraw
  exact noFuel_ite (noFuel_bind (noFuel_npRandint _ _) (fun a => noFuel_pure _))
    (noFuel_pure _)

theorem noFuel_packStep (ctx : ShelfCtx) (fgImg : Img) (classId : ℤ)
    (st : ShelfState) : NoFuel (packStep ctx fgImg classId st) := by
  refine noFuel_bind noFuel_npBinomial fun isRot => ?_
  refine noFuel_bind (noFuel_rotDraw _ _ _) fun tp => ?_
  cases ctx.shelfYs.get? ctx.shelf with
  | none => exact noFuel_raise (by decide)
  | some shelfY =>
    refine noFuel_ite (noFuel_pure _) ?_
    exact noFuel_bind (noFuel_npRandint _ _)
      (fun off => noFuel_ite (noFuel_pure _) (noFuel_pure _))

theorem noFuel_packLoop (ctx : ShelfCtx) (fgImg : Img) (classId : ℤ) :
    ∀ k st, NoFuel (packLoop ctx fgImg classId k st) := by
  intro k
  induction k with
  | zero => exact fun st => noFuel_pure _
  | succ k ih =>
    intro st
    refine noFuel_bind (noFuel_packStep ctx fgImg classId st) fun r => ?_
    cases r with
    | stop st' => exact noFuel_pure _
    | cont st' => exact ih st'

theorem packStep_posX_mono {ctx : ShelfCtx} {fgImg : Img} {classId : ℤ}
    {st : ShelfState} {s : RngState} {r : StepRes} {s' : RngState}
    (h : packStep ctx fgImg classId st s = .ok (r, s')) :
    st.posX ≤ (StepRes.state r).posX := by
  obtain ⟨tp, shelfY, hy, hcase⟩ := packStep_spec h
  have hw : (0 : ℤ) ≤ (tp.w : ℤ) := Int.natCast_nonneg _
  rcases hcase with ⟨hov, rfl⟩ | ⟨hacc, hmo, off, h1, h2, hcase2⟩
  · simp only [StepRes.state, rejectedState_posX]
    omega
  · rcases hcase2 with ⟨hbr, rfl⟩ | ⟨hbr, rfl⟩ <;>
      (simp only [StepRes.state, acceptedState_posX]; omega)

theorem packLoop_posX_mono {ctx : ShelfCtx} {fgImg : Img} {classId : ℤ} :
    ∀ (k : ℕ) (st : ShelfState) (s : RngState) (st' : ShelfState) (s' : RngState),
      packLoop ctx fgImg classId k st s = .ok (st', s') → st.posX ≤ st'.posX := by
  intro k
  induction k with
  | zero =>
    intro st s st' s' h
    simp only [packLoop] at h
    obtain ⟨rfl, rfl⟩ := pure_ok h
    exact le_refl _
  | succ k ih =>
    intro st s st' s' h
    simp only [packLoop] at h
    rw [RandM.bind_def] at h
    cases hps : packStep ctx fgImg classId st s with
    | error e => rw [hps] at h; exact absurd h (by simp)
    | ok v =>
      obtain ⟨r, s₁⟩ := v
      rw [hps] at h
      dsimp only at h
      have hmono := packStep_posX_mono hps
      cases r with
      | stop st₂ =>
        dsimp only at h
        obtain ⟨rfl, rfl⟩ := pure_ok h
        exact hmono
      | cont st₂ =>
        dsimp only at h
        exact le_trans hmono (ih st₂ s₁ st' s' h)

theorem packLoop_progress {ctx : ShelfCtx} {fgImg : Img} {classId : ℤ}
    {k : ℕ} {st : ShelfState} {s : RngState} {st' : ShelfState} {s' : RngState}
    (hk : 1 ≤ k)
    (h : packLoop ctx fgImg classId k st s = .ok (st', s')) :
    st.posX + 1 ≤ st'.posX ∨ ctx.xEnd < st'.posX := by
  cases k with
  | zero => omega
  | succ m =>
    simp only [packLoop] at h
    rw [RandM.bind_def] at h
    cases hps : packStep ctx fgImg classId st s with
    | error e => rw [hps] at h; exact absurd h (by simp)
    | ok v =>
      obtain ⟨r, s₁⟩ := v
      rw [hps] at h
      dsimp only at h
      obtain ⟨tp, shelfY, hy, hcase⟩ := packStep_spec hps
      have hw : (0 : ℤ) ≤ (tp.w : ℤ) := Int.natCast_nonneg _
      rcases hcase with ⟨hov, rfl⟩ | ⟨hacc, hmo, off, h1, h2, hcase2⟩
      · dsimp only at h
        obtain ⟨rfl, rfl⟩ := pure_ok h
        right
        simp only [rejectedState_posX]
        omega
      · rcases hcase2 with ⟨hbr, rfl⟩ | ⟨hbr, rfl⟩
        · dsimp only at h
          obtain ⟨rfl, rfl⟩ := pure_ok h
          left
          simp only [acceptedState_posX]
          omega
        · dsimp only at h
          have hmono := packLoop_posX_mono m _ s₁ st' s' h
          left
          simp only [acceptedState_posX] at hmono
          omega

/-- Fuel sufficiency for the outer loop: with at least one pack repetition
per iteration, every iteration either raises a genuine exception, ends the
shelf, or advances the cursor by at least one pixel, so
`(x_end - cursor).toNat` fuel can never be exhausted. -/
theorem shelfLoop_term {ctx : ShelfCtx} {syn : Synth} {tpath : String}
    {categories : List String} {objSizes : List ObjectSize} {maxObjs : ℕ}
    (hobjs : 1 ≤ maxObjs) :
    ∀ (fuel : ℕ) (st : ShelfState) (s : RngState) (e : Err),
      (ctx.xEnd - st.posX).toNat ≤ fuel →
      shelfLoop ctx syn tpath categories objSizes maxObjs fuel st s = .error e →
      e ≠ .fuelOut := by
  intro fuel
  induction fuel with
  | zero =>
    intro st s e hm h
    simp only [shelfLoop] at h
    by_cases hc : st.posX < ctx.xEnd
    · exfalso
      omega
    · rw [if_neg hc] at h
      exact absurd h (by simp)
  | succ fuel ih =>
    intro st s e hm h
    simp only [shelfLoop] at h
    by_cases hc : st.posX < ctx.xEnd
    · rw [if_pos hc] at h
      rw [RandM.bind_def] at h
      cases h1 : getFgAndConf syn tpath categories s with
      | error e1 =>
        rw [h1] at h
        simp only [Except.error.injEq] at h
        rw [← h]
        exact noFuel_getFgAndConf syn tpath categories s e1 h1
      | ok v1 =>
        obtain ⟨fg, s₁⟩ := v1
        rw [h1] at h
        dsimp only at h
        rw [RandM.bind_def] at h
        cases h2 : npChoice objSizes s₁ with
        | error e2 =>
          rw [h2] at h
          simp only [Except.error.injEq] at h
          rw [← h]
          exact noFuel_npChoice objSizes s₁ e2 h2
        | ok v2 =>
          obtain ⟨os, s₂⟩ := v2
          rw [h2] at h
          dsimp only at h
          rw [RandM.bind_def] at h
          cases h3 : RandM.liftE (getNewImageSize fg.conf os ctx.shelfHt) s₂ with
          | error e3 =>
            rw [h3] at h
            simp only [Except.error.injEq] at h
            rw [← h]
            refine noFuel_liftE ?_ s₂ e3 h3
            intro e4 he4
            rw [getNewImageSize_err he4]
            decide
          | ok v3 =>
            obtain ⟨sz, s₃⟩ := v3
            rw [h3] at h
            dsimp only at h
            rw [RandM.bind_def] at h
            cases h4 : RandM.liftE (resizeImg ctx.env (ctx.env.loadImg fg.file) sz) s₃ with
            | error e4 =>
              rw [h4] at h
              simp only [Except.error.injEq] at h
              rw [← h]
              refine noFuel_liftE ?_ s₃ e4 h4
              intro e5 he5
              rw [resizeImg_err he5]
              decide
            | ok v4 =>
              obtain ⟨fgImg, s₄⟩ := v4
              rw [h4] at h
              dsimp only at h
              rw [RandM.bind_def] at h
              cases h5 : packLoop ctx fgImg fg.classId maxObjs st s₄ with
              | error e5 =>
                rw [h5] at h
                simp only [Except.error.injEq] at h
                rw [← h]
                exact noFuel_packLoop ctx fgImg fg.classId maxObjs st s₄ e5 h5
              | ok v5 =>
                obtain ⟨st₁, s₅⟩ := v5
                rw [h5] at h
                dsimp only at h
                have hprog := packLoop_progress hobjs h5
                refine ih st₁ s₅ e ?_ h
                rcases hprog with hp1 | hp1
                · omega
                · omega
    · rw [if_neg hc] at h
      exact absurd h (by simp [RandM.pure_def])

/-- **C10 (amended)**: for every shelf configuration with
`x_start < x_end`, `max_offset ≥ 2` and at least one repetition per pack
(`max_objs_in_pack ≥ 1`), the shelf-packing loop terminates: fuel
`(x_end - x_start)` outer iterations can never be exhausted, because each
accepted placement strictly advances the cursor (width plus an offset ≥ 1),
each rejection moves the cursor past `x_end`, and the loop exits as soon as
the cursor reaches `x_end`.  (Positive placement widths are not needed.) -/
theorem claim10_amended_termination
    (env : Env) (syn : Synth) (tpath : String) (shelf : ℕ) (bgConf : BgConf)
    (bgFile : String) (categories : List String) (rotPc : ℚ)
    (objSizes : List ObjectSize) (maxObjs : ℕ) (maxOffset : ℤ) (fuel : ℕ)
    (s : RngState)
    (hx : bgConf.shelf_x_start < bgConf.shelf_x_end)
    (hmo : 2 ≤ maxOffset) (hobjs : 1 ≤ maxObjs)
    (hfuel : (bgConf.shelf_x_end - bgConf.shelf_x_start).toNat ≤ fuel) :
    processShelf env syn tpath shelf bgConf bgFile categories rotPc objSizes
      maxObjs maxOffset fuel s ≠ .error .fuelOut := by
  unfold processShelf
  intro hcontra
  refine shelfLoop_term hobjs fuel (initShelfState env bgConf bgFile) s .fuelOut ?_ hcontra rfl
  simp only [mkShelfCtx_xEnd, initShelfState]
  exact hfuel

/-!
### Concrete fixtures

A tiny executable instantiation used by the counterexamples and the
witnesses: one background with a single shelf of x-extent `[0, 11)`, bottom y
8, shelf height 5; one category `"c"` with one object `"o"` of native size
2 × 3 and class id 5; an environment with constant pixel content and a
rotation that keeps the image unchanged; the raw draw stream is constantly 0.
-/

def bgConf0 : BgConf :=
  { shelf_x_start := 0
    shelf_x_end := 11
    shelf_y_positions := [8]
    shelf_ht := 5
    num_shelves := 1 }

def syn0 : Synth :=
  { bg_conf := [("b", bgConf0)]
    fg_conf := [("c", [("o", ⟨2, 3⟩)])]
    class_map := [("c", 5)] }

def env0 : Env :=
  { loadImg := fun _ => ⟨4, 4, fun _ => 7, fun _ => 255⟩
    resampleRgba := fun _ _ _ => 7
    resampleAlpha := fun _ _ _ => 255
    rotateImg := fun _ i => i
    mix := fun _ f _ => f
    bgPix := fun _ _ => 3
    bgSize := fun _ => (20, 20) }

def s0 : RngState := ⟨fun _ => 0, 0⟩

/-- Counterexample to C10 as stated: the claim does not constrain
`max_objs_in_pack`, but with `max_objs_in_pack = 0` (and `x_start < x_end`,
`max_offset ≥ 2`, positive widths) the inner `for` loop body never runs, the
cursor never moves, and the outer `while` loop never terminates: the model
exhausts any amount of fuel. -/
theorem liftE_ok (a : α) (s : RngState) : RandM.liftE (Except.ok a) s = .ok (a, s) := rfl

theorem npChoice_singleton (a : α) (s : RngState) :
    npChoice [a] s = .ok (a, ⟨s.stream, s.idx + 1⟩) := by
  simp [npChoice, RandM.bind_def, RandM.draw, RandM.pure_def, Nat.mod_one]

theorem resizeImg_ok (env : Env) (img : Img) (sz : ℤ × ℤ)
    (h : ¬ (sz.1 < 0 ∨ sz.2 < 0)) :
    resizeImg env img sz =
      .ok ⟨sz.1.toNat, sz.2.toNat, env.resampleRgba img sz, env.resampleAlpha img sz⟩ := by
  unfold resizeImg
  rw [if_neg h]

theorem getFgAndConf0 (s : RngState) :
    getFgAndConf syn0 "" ["c"] s =
      .ok (⟨"" ++ "/foregrounds/" ++ "c" ++ "/" ++ "o" ++ ".png", ⟨2, 3⟩, 5⟩,
        ⟨s.stream, s.idx + 2⟩) := by
  unfold getFgAndConf
  rw [RandM.bind_def, npChoice_singleton]
  dsimp only
  rw [RandM.bind_def]
  rw [show pyLookup syn0.fg_conf "c" = Except.ok [("o", (⟨2, 3⟩ : ObjConf))] from rfl]
  rw [liftE_ok]
  dsimp only
  rw [RandM.bind_def]
  rw [show (List.map Prod.fst [("o", (⟨2, 3⟩ : ObjConf))]) = ["o"] from rfl]
  rw [npChoice_singleton]
  dsimp only
  rw [RandM.bind_def]
  rw [show pyLookup [("o", (⟨2, 3⟩ : ObjConf))] "o" = Except.ok (⟨2, 3⟩ : ObjConf) from rfl]
  rw [liftE_ok]
  dsimp only
  rw [RandM.bind_def]
  rw [show pyLookup syn0.class_map "c" = Except.ok (5 : ℤ) from rfl]
  rw [liftE_ok]
  dsimp only
  rw [RandM.pure_def]

theorem gnis_small_5 : getNewImageSize ⟨2, 3⟩ ObjectSize.small 5 = .ok (4, 3) := by
  norm_num [getNewImageSize, pyInt, ObjectSize.scale]

theorem claim10_counterexample_aux : ∀ (fuel : ℕ) (s : RngState),
    shelfLoop (mkShelfCtx env0 0 bgConf0 "" 3) syn0 "" ["c"] [ObjectSize.small] 0 fuel
      (initShelfState env0 bgConf0 "") s = .error .fuelOut := by
  intro fuel
  induction fuel with
  | zero => intro s; rfl
  | succ fuel ih =>
    intro s
    simp only [shelfLoop]
    rw [if_pos (by decide :
      (initShelfState env0 bgConf0 "").posX < (mkShelfCtx env0 0 bgConf0 "" 3).xEnd)]
    rw [RandM.bind_def, getFgAndConf0]
    dsimp only
    rw [RandM.bind_def, npChoice_singleton]
    dsimp only
    rw [RandM.bind_def]
    rw [show (mkShelfCtx env0 0 bgConf0 "" 3).shelfHt = 5 from rfl]
    rw [gnis_small_5, liftE_ok]
    dsimp only
    rw [RandM.bind_def]
    rw [resizeImg_ok _ _ _ (by decide), liftE_ok]
    dsimp only
    rw [RandM.bind_def]
    simp only [packLoop]
    rw [RandM.pure_def]
    dsimp only
    exact ih _

/-- Non-termination of the fixture run with `max_objs_in_pack = 0`, rendered
in the fuel model: no amount of fuel lets `processShelf` finish — every run
ends in fuel exhaustion, which no embedded primitive raises. -/
def processShelfDivergesAtPackSizeZero : Prop :=
  ∀ fuel : ℕ,
    processShelf env0 syn0 "" 0 bgConf0 "" ["c"] (1 / 10) [ObjectSize.small] 0 3 fuel s0 =
      .error .fuelOut

theorem claim10_counterexample : processShelfDivergesAtPackSizeZero :=
  fun fuel => claim10_counterexample_aux fuel s0

/-- Witness for C10 (amended): at the concrete fixture with
`max_objs_in_pack = 1`, `max_offset = 3` and fuel 11 = `x_end - x_start`, the
packer does not exhaust its fuel. -/
theorem claim10_witness :
    processShelf env0 syn0 "" 0 bgConf0 "" ["c"] (1 / 10) [ObjectSize.small] 1 3 11 s0 ≠
      .error .fuelOut :=
  claim10_amended_termination env0 syn0 "" 0 bgConf0 "" ["c"] (1 / 10)
    [ObjectSize.small] 1 3 11 s0 (by decide) (by decide) (by decide) (by decide)

/-!
### Claim C3: the scale calculator
-/

/-- The target height named by the (amended) specification:
`floor(shelf_height * size_scale)`. -/
def amendedTargetHeight (os : ObjectSize) (sh : ℤ) : ℤ :=
  ⌊(sh : ℚ) * os.scale⌋

/-- The exact aspect-preserving width the (amended) specification starts
from: `(target_height / native_height) * native_width`; the code truncates
this value with `int()`. -/
def amendedTargetWidth (conf : ObjConf) (os : ObjectSize) (sh : ℤ) : ℚ :=
  ((amendedTargetHeight os sh : ℚ) / (conf.height : ℚ)) * (conf.width : ℚ)

/-- Counterexample to C3 as stated: for a native 2 × 3 cutout (height 2,
width 3), SMALL scale and shelf height 2, the code computes target height 1
and then width `int(1 / 2 * 3) = int(1.5) = 1` by truncation, whereas the
claimed `round(height / native_height * native_width)` is `round(1.5) = 2`. -/
theorem claim3_counterexample :
    getNewImageSize ⟨2, 3⟩ ObjectSize.small 2 = .ok (1, 1) ∧
    round (((1 : ℚ) / 2) * 3) = (2 : ℤ) ∧ (1 : ℤ) ≠ 2 := by
  refine ⟨?_, ?_, by decide⟩
  · norm_num [getNewImageSize, pyInt, ObjectSize.scale]
  · norm_num [round_eq]

/-- **C3 (amended)**: for positive native height, nonnegative native width
and shelf height, the scale calculator returns
`height = floor(shelf_height * size_scale)` and
`width = floor((height / native_height) * native_width)` — Python `int()`
truncation, not rounding to nearest — and the width is within one pixel
below the exact aspect-preserving value. -/
theorem claim3_amended_scale_calculator
    (conf : ObjConf) (os : ObjectSize) (sh : ℤ)
    (hh : 0 < conf.height) (hw : 0 ≤ conf.width) (hs : 0 ≤ sh) :
    getNewImageSize conf os sh =
      .ok (⌊amendedTargetWidth conf os sh⌋, amendedTargetHeight os sh) ∧
    0 ≤ Int.fract (amendedTargetWidth conf os sh) ∧
    Int.fract (amendedTargetWidth conf os sh) < 1 := by
  have hscale : 0 < os.scale := by
    cases os <;> norm_num [ObjectSize.scale]
  have h1 : 0 ≤ (sh : ℚ) * os.scale :=
    mul_nonneg (by exact_mod_cast hs) (le_of_lt hscale)
  have hfl : 0 ≤ ((⌊(sh : ℚ) * os.scale⌋ : ℤ) : ℚ) := by
    exact_mod_cast Int.floor_nonneg.2 h1
  have h2 : 0 ≤ amendedTargetWidth conf os sh := by
    unfold amendedTargetWidth amendedTargetHeight
    refine mul_nonneg (div_nonneg hfl ?_) ?_
    · exact_mod_cast le_of_lt hh
    · exact_mod_cast hw
  refine ⟨?_, Int.fract_nonneg _, Int.fract_lt_one _⟩
  unfold getNewImageSize
  rw [if_neg (by omega : ¬ conf.height = 0)]
  dsimp only
  rw [pyInt_eq_floor h1]
  rw [pyInt_eq_floor (by unfold amendedTargetWidth amendedTargetHeight at h2; exact h2)]
  rfl

/-- Witness for C3 (amended), at native 2 × 3, SMALL, shelf height 2. -/
theorem claim3_witness :
    getNewImageSize ⟨2, 3⟩ ObjectSize.small 2 =
      .ok (⌊amendedTargetWidth ⟨2, 3⟩ ObjectSize.small 2⌋,
        amendedTargetHeight ObjectSize.small 2) ∧
    0 ≤ Int.fract (amendedTargetWidth ⟨2, 3⟩ ObjectSize.small 2) ∧
    Int.fract (amendedTargetWidth ⟨2, 3⟩ ObjectSize.small 2) < 1 :=
  claim3_amended_scale_calculator ⟨2, 3⟩ ObjectSize.small 2 (by decide) (by decide)
    (by decide)

/-!
### Claim C8: size-scale monotonicity
-/

/-- Counterexample to C8 as stated: at shelf height 1 every size scale gives
target height `int(1 * scale) = 0`, so `height(SMALL) < height(MEDIUM)`
fails (the claim quantifies over every shelf height). -/
theorem claim8_counterexample :
    getNewImageSize ⟨1, 1⟩ ObjectSize.small 1 = .ok (0, 0) ∧
    getNewImageSize ⟨1, 1⟩ ObjectSize.medium 1 = .ok (0, 0) ∧
    ¬ ((0 : ℤ) < 0) := by
  refine ⟨?_, ?_, by decide⟩ <;> norm_num [getNewImageSize, pyInt, ObjectSize.scale]

theorem floor_scale_small (sh : ℤ) :
    ⌊(sh : ℚ) * ObjectSize.small.scale⌋ = (3 * sh) / 5 := by
  have h : (sh : ℚ) * ObjectSize.small.scale = ((3 * sh : ℤ) : ℚ) / ((5 : ℕ) : ℚ) := by
    simp only [ObjectSize.scale]
    push_cast
    ring
  rw [h, Rat.floor_intCast_div_natCast]
  norm_num

theorem floor_scale_medium (sh : ℤ) :
    ⌊(sh : ℚ) * ObjectSize.medium.scale⌋ = (3 * sh) / 4 := by
  have h : (sh : ℚ) * ObjectSize.medium.scale = ((3 * sh : ℤ) : ℚ) / ((4 : ℕ) : ℚ) := by
    simp only [ObjectSize.scale]
    push_cast
    ring
  rw [h, Rat.floor_intCast_div_natCast]
  norm_num

theorem floor_scale_large (sh : ℤ) :
    ⌊(sh : ℚ) * ObjectSize.large.scale⌋ = (9 * sh) / 10 := by
  have h : (sh : ℚ) * ObjectSize.large.scale = ((9 * sh : ℤ) : ℚ) / ((10 : ℕ) : ℚ) := by
    simp only [ObjectSize.scale]
    push_cast
    ring
  rw [h, Rat.floor_intCast_div_natCast]
  norm_num

/-- **C8 (amended)**: for every object with nonzero native height and every
shelf height ≥ 6, the computed target height is strictly increasing along
SMALL < MEDIUM < LARGE; for smaller shelf heights strictness can fail (see
the counterexample at shelf height 1). -/
theorem claim8_amended_size_monotonicity
    (conf : ObjConf) (sh : ℤ) (h6 : 6 ≤ sh) (hh : conf.height ≠ 0) :
    ∀ ws hs wm hm wl hl : ℤ,
      getNewImageSize conf .small sh = .ok (ws, hs) →
      getNewImageSize conf .medium sh = .ok (wm, hm) →
      getNewImageSize conf .large sh = .ok (wl, hl) →
      hs < hm ∧ hm < hl := by
  intro ws hs wm hm wl hl h1 h2 h3
  unfold getNewImageSize at h1 h2 h3
  rw [if_neg hh] at h1 h2 h3
  simp only [Except.ok.injEq, Prod.mk.injEq] at h1 h2 h3
  obtain ⟨-, hsmall⟩ := h1
  obtain ⟨-, hmed⟩ := h2
  obtain ⟨-, hlarge⟩ := h3
  have hshq : (0 : ℚ) ≤ (sh : ℚ) := by exact_mod_cast (by omega : (0 : ℤ) ≤ sh)
  have e1 : hs = (3 * sh) / 5 := by
    rw [← hsmall, pyInt_eq_floor (mul_nonneg hshq (by norm_num [ObjectSize.scale]))]
    exact floor_scale_small sh
  have e2 : hm = (3 * sh) / 4 := by
    rw [← hmed, pyInt_eq_floor (mul_nonneg hshq (by norm_num [ObjectSize.scale]))]
    exact floor_scale_medium sh
  have e3 : hl = (9 * sh) / 10 := by
    rw [← hlarge, pyInt_eq_floor (mul_nonneg hshq (by norm_num [ObjectSize.scale]))]
    exact floor_scale_large sh
  subst e1 e2 e3
  rcases lt_or_eq_of_le h6 with h7 | heq
  · constructor <;> omega
  · rw [← heq]
    decide

/-- Witness for C8 (amended) at shelf height 6: heights 3 < 4 < 5. -/
theorem claim8_witness : (3 : ℤ) < 4 ∧ (4 : ℤ) < 5 :=
  claim8_amended_size_monotonicity ⟨1, 1⟩ 6 (by decide) (by decide) 3 3 4 4 5 5
    (by norm_num [getNewImageSize, pyInt, ObjectSize.scale])
    (by norm_num [getNewImageSize, pyInt, ObjectSize.scale])
    (by norm_num [getNewImageSize, pyInt, ObjectSize.scale])

/-!
### Claim C7: error types for bad inputs
-/

theorem liftE_err (e : Err) (s : RngState) :
    RandM.liftE (Except.error e : Except Err α) s = .error e := rfl

/-- Counterexample to C7 as stated: an empty allowed-category set makes the
numpy choice raise ValueError — not the InvalidInputError the claim names,
which does not exist anywhere in the source. -/
theorem claim7_counterexample :
    getFgAndConf syn0 "" [] s0 = .error .valueError ∧
    Err.valueError ≠ Err.invalidInputError := by
  constructor
  · rfl
  · decide

/-- **C7 (amended)**: the failures are the built-in exceptions, not a custom
InvalidInputError (no such type exists in the source): an empty
allowed-category set raises ValueError from the numpy choice; a chosen
category absent from the configured foregrounds raises KeyError from the
dict subscript; a zero native height raises ZeroDivisionError in the size
computation; a negative computed target size raises ValueError at resize.
They arise during shelf processing, when the sample is drawn — not before
image work begins. -/
theorem claim7_amended_error_types :
    (∀ (syn : Synth) (tpath : String) (s : RngState),
      getFgAndConf syn tpath [] s = .error .valueError) ∧
    (∀ (syn : Synth) (tpath : String) (categories : List String) (s : RngState)
      (cat : String) (s₁ : RngState),
      npChoice categories s = .ok (cat, s₁) →
      List.lookup cat syn.fg_conf = none →
      getFgAndConf syn tpath categories s = .error .keyError) ∧
    (∀ (conf : ObjConf) (os : ObjectSize) (sh : ℤ),
      conf.height = 0 → getNewImageSize conf os sh = .error .zeroDivisionError) ∧
    (∀ (env : Env) (img : Img) (sz : ℤ × ℤ), sz.1 < 0 ∨ sz.2 < 0 →
      resizeImg env img sz = .error .valueError) := by
  refine ⟨fun syn tpath s => rfl, ?_, ?_, ?_⟩
  · intro syn tpath categories s cat s₁ hchoice hlookup
    unfold getFgAndConf
    rw [RandM.bind_def, hchoice]
    dsimp only
    rw [RandM.bind_def]
    have hpl : pyLookup syn.fg_conf cat = .error .keyError := by
      unfold pyLookup
      rw [hlookup]
    rw [hpl, liftE_err]
  · intro conf os sh h0
    unfold getNewImageSize
    rw [if_pos h0]
  · intro env img sz hneg
    unfold resizeImg
    rw [if_pos hneg]

/-- Witness for C7 (amended): the four failure modes at concrete inputs. -/
theorem claim7_witness :
    getFgAndConf syn0 "" [] s0 = .error .valueError ∧
    getFgAndConf syn0 "" ["zzz"] s0 = .error .keyError ∧
    getNewImageSize ⟨0, 3⟩ ObjectSize.small 5 = .error .zeroDivisionError ∧
    resizeImg env0 (env0.loadImg "x") (-1, 3) = .error .valueError :=
  ⟨claim7_amended_error_types.1 syn0 "" s0,
    claim7_amended_error_types.2.1 syn0 "" ["zzz"] s0 "zzz" _
      (npChoice_singleton "zzz" s0) rfl,
    claim7_amended_error_types.2.2.1 ⟨0, 3⟩ ObjectSize.small 5 rfl,
    claim7_amended_error_types.2.2.2 env0 (env0.loadImg "x") (-1, 3)
      (Or.inl (by decide))⟩

/-!
### Claim C4: the inter-object offset draw
-/

/-- **C4** (code bug at the degenerate bound): the offset is drawn by
`randint(1, max_offset)` — an integer in `[1, max_offset)` when
`max_offset ≥ 2` — but with the degenerate bound `max_offset = 1` (the
function's own default `x_offset=1`) numpy's `randint(1, 1)` raises
ValueError (`low >= high`); the run aborts at the first accepted placement
instead of proceeding with offset 0 as the specification claims.  Concretely,
the fixture run with `max_offset = 1` fails with ValueError, and
`randint(1, 1)` itself raises ValueError. -/
theorem claim4_offset_draw_valueerror :
    processShelf env0 syn0 "" 0 bgConf0 "" ["c"] (1 / 10) [ObjectSize.small] 1 1 12 s0 =
      .error .valueError ∧
    npRandint 1 1 s0 = .error .valueError := by
  constructor
  · with_unfolding_all rfl
  · rfl

/-!
### Claim C5: determinism
-/

/-- **C5** (determinism): the generated dataset — every image's composite
pixels and every mask's contents — is a function of the seed stream,
configuration and arguments alone: a successful run consumes the draw
indices `[s.idx, s'.idx)` in a fixed order, and any second run whose stream
agrees on exactly that consumed range (in particular, a rerun with the same
seed) produces identical output and consumes the same range. -/
theorem claim5_determinism
    (env : Env) (syn : Synth) (tpath : String) (categories : List String)
    (rotPc : List ℚ) (objSizes : List ObjectSize) (maxObjs : ℕ) (maxOffset : ℤ)
    (fuel n : ℕ) (s s' t : RngState) (out : List ImageOut)
    (h : generateDataset env syn tpath categories rotPc objSizes maxObjs maxOffset
      fuel n s = .ok (out, s'))
    (ht : t.idx = s.idx)
    (hagree : ∀ j, s.idx ≤ j → j < s'.idx → t.stream j = s.stream j) :
    generateDataset env syn tpath categories rotPc objSizes maxObjs maxOffset
      fuel n t = .ok (out, ⟨t.stream, s'.idx⟩) :=
  ((good_generateDataset env syn tpath categories rotPc objSizes maxObjs maxOffset
    fuel n) s out s' h).2.2 t ht hagree

/-!
### Concrete witness runs

`stW` is the shelf state of a successful fixture run (two accepted
placements, then a rejected overflow attempt); `outW` a successful per-image
run; `outD` a one-image dataset run.
-/

def runShelf0 : Except Err (ShelfState × RngState) :=
  processShelf env0 syn0 "" 0 bgConf0 "" ["c"] (1 / 10) [ObjectSize.small] 1 3 12 s0

def stW : ShelfState :=
  match runShelf0 with
  | .ok (st, _) => st
  | .error _ => initShelfState env0 bgConf0 ""

def rngW : RngState :=
  match runShelf0 with
  | .ok (_, s) => s
  | .error _ => s0

/-- Witness for C1 at the fixture run. -/
theorem claim1_witness :
    (∀ a ∈ stW.attempts, a.accepted = true →
      bgConf0.shelf_x_start ≤ a.anchorX ∧ a.anchorX + (a.width : ℤ) ≤ bgConf0.shelf_x_end) ∧
    (∀ a ∈ stW.attempts, a.accepted = false →
      bgConf0.shelf_x_end < a.anchorX + (a.width : ℤ) ∧
      (∀ mf ∈ stW.masks, mf.counter ≠ a.counter) ∧
      stW.attempts.getLast? = some a ∧
      stW.posX = a.anchorX + (a.width : ℤ) ∧
      bgConf0.shelf_x_end < stW.posX) :=
  claim1_shelf_bound_invariant env0 syn0 "" 0 bgConf0 "" ["c"] (1 / 10)
    [ObjectSize.small] 1 3 12 s0 rngW stW (by with_unfolding_all rfl)

/-- Witness for C2 at the fixture run (shelf bottom y = 8). -/
theorem claim2_witness :
    stW.masks.length = (stW.attempts.filter (fun a => a.accepted)).length ∧
    ∀ mf ∈ stW.masks, ∀ p : ℤ × ℤ, mf.content p ≠ 0 →
      (8 : ℤ) - (mf.height : ℤ) ≤ p.2 ∧ p.2 < 8 :=
  claim2_mask_placement_correspondence env0 syn0 "" 0 bgConf0 "" ["c"] (1 / 10)
    [ObjectSize.small] 1 3 12 s0 rngW stW 8 (by with_unfolding_all rfl) rfl

/-- Witness for C9 at the fixture run. -/
theorem claim9_witness :
    stW.numObj = stW.attempts.length ∧
    stW.attempts.map (fun a => a.counter) = List.range' 1 stW.attempts.length ∧
    stW.masks.map (fun mf => (mf.name, mf.counter, mf.classId)) =
      (stW.attempts.filter (fun a => a.accepted)).map
        (fun a => (maskName 0 a.counter a.classId, a.counter, a.classId)) :=
  claim9_mask_naming env0 syn0 "" 0 bgConf0 "" ["c"] (1 / 10) [ObjectSize.small]
    1 3 12 s0 rngW stW (by with_unfolding_all rfl)

def runImage0 : Except Err (ImageOut × RngState) :=
  generateImage env0 syn0 "" ["c"] [1 / 10] [ObjectSize.small] 1 3 12 s0

def outW : ImageOut :=
  match runImage0 with
  | .ok (o, _) => o
  | .error _ => ⟨"", [], fun _ => 0⟩

def rngI : RngState :=
  match runImage0 with
  | .ok (_, s) => s
  | .error _ => s0

/-- Witness for C6 at the fixture per-image run. -/
theorem claim6_witness :
    (∀ p : ℤ × ℤ, (∀ st ∈ outW.shelves, st.shelfMask p = 0) →
      outW.composite p = env0.bgPix outW.bgFile p) ∧
    (∀ (p : ℤ × ℤ) (i j : ℕ) (hi : i < outW.shelves.length)
        (hj : j < outW.shelves.length), i < j →
      (outW.shelves.get ⟨i, hi⟩).shelfMask p ≠ 0 →
      (outW.shelves.get ⟨j, hj⟩).shelfMask p = 255 →
      (∀ k (hk : k < outW.shelves.length), j < k →
        (outW.shelves.get ⟨k, hk⟩).shelfMask p = 0) →
      outW.composite p = (outW.shelves.get ⟨j, hj⟩).img p) :=
  claim6_shelf_compositing env0 syn0 "" ["c"] [1 / 10] [ObjectSize.small] 1 3 12
    s0 rngI outW (by with_unfolding_all rfl)

def runData0 : Except Err (List ImageOut × RngState) :=
  generateDataset env0 syn0 "" ["c"] [1 / 10] [ObjectSize.small] 1 3 12 1 s0

def outD : List ImageOut :=
  match runData0 with
  | .ok (o, _) => o
  | .error _ => []

def rngD : RngState :=
  match runData0 with
  | .ok (_, s) => s
  | .error _ => s0

/-- Witness for C5: a rerun of the fixture dataset generation on the same
seed stream reproduces the identical output and consumed range. -/
theorem claim5_witness :
    generateDataset env0 syn0 "" ["c"] [1 / 10] [ObjectSize.small] 1 3 12 1 s0 =
      .ok (outD, ⟨s0.stream, rngD.idx⟩) :=
  claim5_determinism env0 syn0 "" ["c"] [1 / 10] [ObjectSize.small] 1 3 12 1 s0
    rngD s0 outD (by with_unfolding_all rfl) rfl (fun j h1 h2 => rfl)
